import Mathlib

/-!
Verification development for the tiered record-matching engine of the
Reconciliation-Module repository (src/drafts.py and src/pywithgui.py).

The Python sources are shallowly embedded below:
* strings are `List Char` / `String`, scores are `ℚ`;
* `difflib.SequenceMatcher(None, a, b).ratio()` is embedded by `ratio`,
  via the documented Ratcliff/Obershelp semantics of `find_longest_match`
  (longest matching block, earliest in `a`, then earliest in `b`) and
  `get_matching_blocks` (recursive split around the longest block).
  The `autojunk` heuristic, which only activates for sequences of 200 or
  more elements, is not modelled;
* `clean_name`, `ultra_strict_match` (with the 0.85 / 0.50 similarity
  floor as a parameter, instantiated by the two source files),
  `values_match`, and the four-pass `ultra_strict_matching` engines of
  both files are embedded as executable functions;
* records of `pywithgui.py` are association lists of column name to
  value, where a value is either a null (`pandas` NA / Python `None`,
  carrying its `str()` rendering) or a string.
-/

set_option maxRecDepth 4000

namespace Recon

/-- Python `str.isspace` characters relevant to `strip`/`split`
(ASCII whitespace). -/
def pyIsSpace (c : Char) : Bool :=
  c = ' ' || c = '\t' || c = '\n' || c = '\r' || c = '\x0b' || c = '\x0c'

/-- Python `str.lower` on a single character (ASCII range, which is all the
source's inputs use). -/
def pyLowerChar (c : Char) : Char :=
  if 'A' ≤ c ∧ c ≤ 'Z' then Char.ofNat (c.toNat + 32) else c

/-- Python `str.lower`. -/
def pyLower (s : List Char) : List Char := s.map pyLowerChar

/-- Python `str.strip()`: drop leading and trailing whitespace. -/
def pyStrip (s : List Char) : List Char :=
  ((s.dropWhile pyIsSpace).reverse.dropWhile pyIsSpace).reverse

/-- Helper for `pySplit`: accumulate the current word (reversed). -/
def pySplitAux : List Char → List Char → List (List Char)
  | [], cur => if cur = [] then [] else [cur.reverse]
  | c :: cs, cur =>
    if pyIsSpace c then
      if cur = [] then pySplitAux cs [] else cur.reverse :: pySplitAux cs []
    else pySplitAux cs (c :: cur)

/-- Python `str.split()` with no argument: split on whitespace runs,
producing no empty words. -/
def pySplit (s : List Char) : List (List Char) := pySplitAux s []

/-- `clean_name` from both source files: `str(name).strip().lower()`
(the `str()` step is the `String` representation itself). -/
def clean_name (name : String) : List Char := pyLower (pyStrip name.data)

/-! ### SequenceMatcher model -/

/-- Length of the longest common prefix of two character lists: the size of
the matching block starting at a given pair of positions. -/
def cpl : List Char → List Char → ℕ
  | a :: as, b :: bs => if a = b then cpl as bs + 1 else 0
  | _, _ => 0

/-- All start-position pairs, in the (i outer ascending, j inner ascending)
order in which `find_longest_match` resolves ties. -/
def lexPairs (a b : List Char) : List (ℕ × ℕ) :=
  (List.range a.length).flatMap fun i =>
    (List.range b.length).map fun j => (i, j)

/-- Size of the longest matching block of two character lists. -/
def bestSize (a b : List Char) : ℕ :=
  (lexPairs a b).foldl (fun m p => max m (cpl (a.drop p.1) (b.drop p.2))) 0

/-- `find_longest_match` over the whole strings (no junk): the longest
matching block, tie-broken to the earliest start in `a` and then the
earliest start in `b`. -/
def findBest (a b : List Char) : ℕ × ℕ × ℕ :=
  match (lexPairs a b).find? fun p =>
      cpl (a.drop p.1) (b.drop p.2) = bestSize a b with
  | some p => (p.1, p.2, bestSize a b)
  | none => (0, 0, 0)

/-- Total size of all matching blocks (`get_matching_blocks`): recursively
split around the longest block. `fuel` bounds the recursion depth; the
first string's length is always enough fuel. -/
def tmFuel : ℕ → List Char → List Char → ℕ
  | 0, _, _ => 0
  | fuel + 1, a, b =>
    let t := findBest a b
    if t.2.2 = 0 then 0
    else
      t.2.2 + tmFuel fuel (a.take t.1) (b.take t.2.1) +
        tmFuel fuel (a.drop (t.1 + t.2.2)) (b.drop (t.2.1 + t.2.2))

/-- The number of matched characters reported by `SequenceMatcher`. -/
def totalMatches (a b : List Char) : ℕ := tmFuel a.length a b

/-- `SequenceMatcher(None, a, b).ratio()`: `2 * M / (len(a) + len(b))`,
and `1.0` when both strings are empty. -/
def ratio (a b : List Char) : ℚ :=
  if a.length + b.length = 0 then 1
  else (2 * totalMatches a b : ℚ) / (a.length + b.length)

/-- `ratio` applied to `String`s. -/
def ratioS (a b : String) : ℚ := ratio a.data b.data

/-! ### The positional word scorer `ultra_strict_match` -/

/-- The token index pairs `(i, j)` scanned by `ultra_strict_match`, in
source order: `i` outer ascending over the first (at most) 3 words of the
first name, `j` inner ascending over the first (at most) 3 words of the
second, skipping pairs with `|i - j| > 1`. -/
def pairList (n1 n2 : ℕ) : List (ℕ × ℕ) :=
  (List.range (min 3 n1)).flatMap fun i =>
    (List.range (min 3 n2)).filterMap fun (j : ℕ) =>
      if ((i : ℤ) - (j : ℤ)).natAbs > 1 then none else some ((i, j) : ℕ × ℕ)

/-- Similarity of the word pair `p` of the two token lists. -/
def wordSim (ws1 ws2 : List (List Char)) (p : ℕ × ℕ) : ℚ :=
  ratio (ws1.getD p.1 []) (ws2.getD p.2 [])

/-- The scan loop of `ultra_strict_match`: accumulate the strong-match
count and similarity sum, returning the average (×100) the moment the
count reaches 2, and `0` if the scan completes first. -/
def scanPairs (floor : ℚ) (ws1 ws2 : List (List Char)) :
    List (ℕ × ℕ) → ℕ → ℚ → ℚ
  | [], _, _ => 0
  | p :: rest, cnt, tot =>
    let s := wordSim ws1 ws2 p
    if floor ≤ s then
      if 2 ≤ cnt + 1 then ((tot + s) / ((cnt + 1 : ℕ) : ℚ)) * 100
      else scanPairs floor ws1 ws2 rest (cnt + 1) (tot + s)
    else scanPairs floor ws1 ws2 rest cnt tot

/-- `ultra_strict_match` from both source files, with the strong-match
similarity floor as a parameter (`0.85` in drafts.py, `0.50` in
pywithgui.py). -/
def ultra_strict_match (floor : ℚ) (name1 name2 : String) : ℚ :=
  let ws1 := pySplit (clean_name name1)
  let ws2 := pySplit (clean_name name2)
  if ws1.length < 2 ∨ ws2.length < 2 then 0
  else scanPairs floor ws1 ws2 (pairList ws1.length ws2.length) 0 0

/-- Modelled from the words of the claim (for the refinement statement of
the scorer): the qualifying pairs are the scanned pairs whose similarity
reaches the floor, in scan order. -/
def claimQualifying (floor : ℚ) (ws1 ws2 : List (List Char)) : List (ℕ × ℕ) :=
  (pairList ws1.length ws2.length).filter fun p =>
    decide (floor ≤ wordSim ws1 ws2 p)

/-- Modelled from the words of the claim: if either name has fewer than 2
tokens the result is 0; otherwise the result is the mean of the first two
qualifying similarities times 100 if at least two pairs qualify, else 0. -/
def claimPositionalScore (floor : ℚ) (name1 name2 : String) : ℚ :=
  let ws1 := pySplit (clean_name name1)
  let ws2 := pySplit (clean_name name2)
  if ws1.length < 2 ∨ ws2.length < 2 then 0
  else
    match claimQualifying floor ws1 ws2 with
    | p :: q :: _ => ((wordSim ws1 ws2 p + wordSim ws1 ws2 q) / 2) * 100
    | _ => 0

/-! ### The four-pass engine, generic core -/

/-- One result row of `ultra_strict_matching`, abstracted to its match
type, score, status and the indices of the consumed records (`none` when
the row carries no record of that side). -/
structure Row where
  mtype : String
  score : ℚ
  mstatus : String
  idx1 : Option ℕ
  idx2 : Option ℕ
deriving DecidableEq, Repr

/-- The engine's mutable state: emitted rows plus the two consumed-index
sets `matched_indices1` / `matched_indices2`. -/
structure EngineState where
  results : List Row
  m1 : Finset ℕ
  m2 : Finset ℕ

/-- Python `enumerate`, starting at `n`. -/
def enumFrom {α : Type} : ℕ → List α → List (ℕ × α)
  | _, [] => []
  | n, a :: as => (n, a) :: enumFrom (n + 1) as

/-- Python `enumerate(xs)`. -/
def pyEnum {α : Type} (l : List α) : List (ℕ × α) := enumFrom 0 l

/-- One step of the best-candidate scan shared by Pass 1 and Pass 2: skip
consumed indices, skip candidates whose score function yields nothing, and
take a candidate exactly when its score strictly exceeds the best so far. -/
def bestStep {α : Type} (f : α → Option ℚ) (m1 : Finset ℕ)
    (acc : ℚ × Option (ℕ × α)) (p : ℕ × α) : ℚ × Option (ℕ × α) :=
  if p.1 ∈ m1 then acc
  else
    match f p.2 with
    | none => acc
    | some c => if acc.1 < c then (c, some p) else acc

/-- The inner candidate scan of Pass 1 / Pass 2: fold `bestStep` over the
enumerated primary collection starting from `best_score = 0`,
`best_match = None`. -/
def bestScan {α : Type} (f : α → Option ℚ) (df1 : List α) (m1 : Finset ℕ) :
    ℚ × Option (ℕ × α) :=
  (pyEnum df1).foldl (bestStep f m1) (0, none)

/-- Pass 1 body for one secondary record: emit an Ultra-Strict row iff the
best score reaches `cutoff`, with status Verified iff it reaches `vsplit`,
consuming both records. -/
def pass1Step {α β : Type} (f : β → α → Option ℚ) (cutoff vsplit : ℚ)
    (df1 : List α) (st : EngineState) (p : ℕ × β) : EngineState :=
  let r := bestScan (f p.2) df1 st.m1
  if cutoff ≤ r.1 then
    match r.2 with
    | some q =>
      ⟨st.results ++
        [⟨"Ultra-Strict Match", r.1,
          if vsplit ≤ r.1 then "Verified" else "Confirmed", some q.1, some p.1⟩],
        insert q.1 st.m1, insert p.1 st.m2⟩
    | none => st
  else st

/-- Pass 1: the fold of `pass1Step` over the enumerated secondary
collection. -/
def pass1 {α β : Type} (f : β → α → Option ℚ) (cutoff vsplit : ℚ)
    (df1 : List α) (df2 : List β) (st : EngineState) : EngineState :=
  (pyEnum df2).foldl (pass1Step f cutoff vsplit df1) st

/-- Pass 2 body for one secondary record: only unconsumed secondaries are
scanned; a Strict row is emitted iff a candidate is tracked (and, as in the
source's `if best_match:`, the candidate record is truthy), consuming both
records. -/
def pass2Step {α β : Type} (g : β → α → Option ℚ) (truthy : α → Bool)
    (df1 : List α) (st : EngineState) (p : ℕ × β) : EngineState :=
  if p.1 ∈ st.m2 then st
  else
    let r := bestScan (g p.2) df1 st.m1
    match r.2 with
    | some q =>
      if truthy q.2 then
        ⟨st.results ++
          [⟨"Strict Match", r.1, "Review Recommended", some q.1, some p.1⟩],
          insert q.1 st.m1, insert p.1 st.m2⟩
      else st
    | none => st

/-- Pass 2: the fold of `pass2Step` over the enumerated secondary
collection. -/
def pass2 {α β : Type} (g : β → α → Option ℚ) (truthy : α → Bool)
    (df1 : List α) (df2 : List β) (st : EngineState) : EngineState :=
  (pyEnum df2).foldl (pass2Step g truthy df1) st

/-- Pass 3 body: every still-unconsumed secondary becomes a Possible row
(no consumption bookkeeping, as in the source). -/
def pass3Step {β : Type} (st : EngineState) (p : ℕ × β) : EngineState :=
  if p.1 ∈ st.m2 then st
  else
    ⟨st.results ++
      [⟨"Possible Match", 0, "Manual Review Needed", none, some p.1⟩],
      st.m1, st.m2⟩

/-- Pass 3 over the enumerated secondary collection. -/
def pass3 {β : Type} (df2 : List β) (st : EngineState) : EngineState :=
  (pyEnum df2).foldl pass3Step st

/-- Pass 4 body: every still-unconsumed primary becomes a No-Match row. -/
def pass4Step {α : Type} (st : EngineState) (p : ℕ × α) : EngineState :=
  if p.1 ∈ st.m1 then st
  else
    ⟨st.results ++ [⟨"No Match", 0, "No Match Found", some p.1, none⟩],
      st.m1, st.m2⟩

/-- Pass 4 over the enumerated primary collection. -/
def pass4 {α : Type} (df1 : List α) (st : EngineState) : EngineState :=
  (pyEnum df1).foldl pass4Step st

/-- The four passes run in order from the empty state. -/
def engineRun {α β : Type} (f g : β → α → Option ℚ) (truthy : α → Bool)
    (cutoff vsplit : ℚ) (df1 : List α) (df2 : List β) : List Row :=
  (pass4 df1 (pass3 df2
    (pass2 g truthy df1 df2
      (pass1 f cutoff vsplit df1 df2 ⟨[], ∅, ∅⟩)))).results

/-- Sort key of the final `sort_values(by=['Match_Score', <type>],
ascending=[False, True])`: score descending, then match type ascending. -/
def rowLE (r s : Row) : Bool :=
  decide (s.score < r.score) || (decide (r.score = s.score) && decide (r.mtype ≤ s.mtype))

/-- Insertion by `rowLE`. -/
def insertRow (r : Row) : List Row → List Row
  | [] => [r]
  | s :: rest => if rowLE r s then r :: s :: rest else s :: insertRow r rest

/-- A deterministic model of the final sort (any sort is a permutation of
the unsorted result list, which is all the claims depend on). -/
def sortRows (l : List Row) : List Row := l.foldr insertRow []

/-! ### The drafts.py instance -/

/-- Pass-1 scoring of drafts.py: the positional word scorer applied to the
primary and secondary name (a candidate is always produced; a score of 0
can never beat `best_score`). The similarity floor is the 0.85 of the
source, kept as a parameter. -/
def draftsScore1 (floor : ℚ) (name2 name1 : String) : Option ℚ :=
  some (ultra_strict_match floor name1 name2)

/-- Pass-2 scoring of drafts.py: plain character similarity of the cleaned
names (×100), gated to the strict-but-not-ultra band `60 ≤ s < 85`. -/
def draftsScore2 (name2 name1 : String) : Option ℚ :=
  let s := ratio (clean_name name1) (clean_name name2) * 100
  if 60 ≤ s ∧ s < 85 then some s else none

/-- `ultra_strict_matching` of drafts.py over the two name columns, with
the positional-scorer floor as a parameter (0.85 in the source). Records
are abstracted to their name-column values; rows carry record indices. -/
def ultra_strict_matching_drafts (floor : ℚ) (df1 df2 : List String) : List Row :=
  sortRows (engineRun (draftsScore1 floor) draftsScore2 (fun _ => true)
    85 90 df1 df2)

/-! ### The pywithgui.py instance -/

/-- A cell value: either a pandas/Python null (`pd.isna` is true; the
string is its Python `str()` rendering, e.g. `"None"` or `"nan"`) or an
ordinary value rendered by `str()`. -/
inductive Value where
  | na : String → Value
  | vstr : String → Value
deriving DecidableEq, Repr

/-- Python `str(v)`. -/
def Value.pyStr : Value → String
  | .na s => s
  | .vstr s => s

/-- `pd.isna(v)`. -/
def Value.isna : Value → Bool
  | .na _ => true
  | .vstr _ => false

/-- A record of pywithgui.py: an ordered mapping from column name to
value, as produced by `DataFrame.to_dict('records')`. -/
abbrev Record := List (String × Value)

/-- `rec.get(col, None)`: an absent column yields Python `None`, whose
`str()` is `"None"`. -/
def recGet (r : Record) (k : String) : Value :=
  match r.lookup k with
  | some v => v
  | none => .na "None"

/-- One matching level `{'col1': …, 'col2': …, 'threshold': …}`. -/
structure Rule where
  col1 : String
  col2 : String
  threshold : ℚ
deriving DecidableEq, Repr

/-- `DataFrame.add_suffix`. -/
def addSuffix (suf : String) (r : Record) : Record :=
  r.map fun q => (q.1 ++ suf, q.2)

/-- `values_match` of pywithgui.py: null on either side fails; otherwise
compare character similarity of the `str()` values to `threshold/100`. -/
def values_match (v1 v2 : Value) (threshold : ℚ) : Bool :=
  if v1.isna || v2.isna then false
  else decide (threshold / 100 ≤ ratioS v1.pyStr v2.pyStr)

/-- The Pass-1 rule loop of pywithgui.py for one candidate pair:
`values_match` gates each rule in order (short-circuiting on the first
failure); on success the raw similarity ratios are collected. -/
def rulesEval1 : List Rule → Record → Record → Option (List ℚ)
  | [], _, _ => some []
  | rule :: rest, r1, r2 =>
    let v1 := recGet r1 (rule.col1 ++ "_Sheet1")
    let v2 := recGet r2 (rule.col2 ++ "_Sheet2")
    if values_match v1 v2 rule.threshold then
      match rulesEval1 rest r1 r2 with
      | some scores => some (ratioS v1.pyStr v2.pyStr :: scores)
      | none => none
    else none

/-- Pass-1 candidate score of pywithgui.py: `if all_match and match_scores:`
then the mean of the ratios ×100. -/
def guiScore1 (rules : List Rule) (rec2 rec1 : Record) : Option ℚ :=
  match rulesEval1 rules rec1 rec2 with
  | some [] => none
  | some scores => some ((scores.sum / (scores.length : ℚ)) * 100)
  | none => none

/-- The Pass-2 rule loop of pywithgui.py: similarities (×100) of the
`str()` values — with no null check — gated per rule by the raw threshold,
short-circuiting on the first failure. -/
def rulesEval2 : List Rule → Record → Record → Option (List ℚ)
  | [], _, _ => some []
  | rule :: rest, r1, r2 =>
    let v1 := recGet r1 (rule.col1 ++ "_Sheet1")
    let v2 := recGet r2 (rule.col2 ++ "_Sheet2")
    let sim := ratioS v1.pyStr v2.pyStr * 100
    if sim < rule.threshold then none
    else
      match rulesEval2 rest r1 r2 with
      | some scores => some (sim :: scores)
      | none => none

/-- Pass-2 candidate score of pywithgui.py: the mean similarity, accepted
only in the strict band `50 ≤ c < 85`. -/
def guiScore2 (rules : List Rule) (rec2 rec1 : Record) : Option ℚ :=
  match rulesEval2 rules rec1 rec2 with
  | some [] => none
  | some scores =>
    let c := scores.sum / (scores.length : ℚ)
    if 50 ≤ c ∧ c < 85 then some c else none
  | none => none

/-- Python truthiness of a record dict (Pass 2's `if best_match:`). -/
def recTruthy (r : Record) : Bool := !r.isEmpty

/-- `ultra_strict_matching` of pywithgui.py: suffix the two collections'
columns, run the four passes (Pass-1 cutoff 50, Verified split 90), sort.
Rows carry record indices. -/
def ultra_strict_matching_gui (rules : List Rule) (df1 df2 : List Record) :
    List Row :=
  sortRows (engineRun (guiScore1 rules) (guiScore2 rules) recTruthy 50 90
    (df1.map (addSuffix "_Sheet1")) (df2.map (addSuffix "_Sheet2")))

/-! ### Consumption invariants of the four passes -/

/-- Number of result rows consuming primary record `i`. -/
def idx1Count (rs : List Row) (i : ℕ) : ℕ :=
  rs.countP fun r => decide (r.idx1 = some i)

/-- Number of result rows consuming secondary record `i`. -/
def idx2Count (rs : List Row) (i : ℕ) : ℕ :=
  rs.countP fun r => decide (r.idx2 = some i)

/-- Shape of a match row produced by Pass 1 or Pass 2: a pair tier with
both records present. -/
def MatchShape (r : Row) : Prop :=
  (r.mtype = "Ultra-Strict Match" ∨ r.mtype = "Strict Match") ∧
    r.idx1.isSome ∧ r.idx2.isSome

/-- Invariant tying the emitted rows to the consumed-index sets during
Pass 1 and Pass 2: a record index is consumed exactly once, by a match
row. -/
def StInv (st : EngineState) : Prop :=
  (∀ i, idx1Count st.results i = if i ∈ st.m1 then 1 else 0) ∧
  (∀ i, idx2Count st.results i = if i ∈ st.m2 then 1 else 0) ∧
  (∀ r ∈ st.results, MatchShape r)


instance decMatchShape (r : Row) : Decidable (MatchShape r) := by
  unfold MatchShape
  infer_instance


/-! ### Lemmas about the similarity scorer -/

theorem cpl_le_left : ∀ a b : List Char, cpl a b ≤ a.length := by
  intro a
  induction a with
  | nil => intro b; cases b <;> simp [cpl]
  | cons c cs ih =>
    intro b
    cases b with
    | nil => simp [cpl]
    | cons d ds =>
      by_cases h : c = d <;> simp [cpl, h]
      exact ih ds

theorem cpl_le_right : ∀ a b : List Char, cpl a b ≤ b.length := by
  intro a
  induction a with
  | nil => intro b; cases b <;> simp [cpl]
  | cons c cs ih =>
    intro b
    cases b with
    | nil => simp [cpl]
    | cons d ds =>
      by_cases h : c = d <;> simp [cpl, h]
      exact ih ds

theorem cpl_self : ∀ a : List Char, cpl a a = a.length := by
  intro a
  induction a with
  | nil => simp [cpl]
  | cons c cs ih => simp [cpl, ih]

theorem mem_lexPairs {a b : List Char} {p : ℕ × ℕ} :
    p ∈ lexPairs a b ↔ p.1 < a.length ∧ p.2 < b.length := by
  rcases p with ⟨i, j⟩
  simp only [lexPairs, List.mem_flatMap, List.mem_map, List.mem_range]
  constructor
  · rintro ⟨i', hi', j', hj', h⟩
    obtain ⟨rfl, rfl⟩ := Prod.mk.injEq .. ▸ h
    exact ⟨hi', hj'⟩
  · rintro ⟨hi, hj⟩
    exact ⟨i, hi, j, hj, rfl⟩

theorem foldl_max_init {γ : Type} (h : γ → ℕ) :
    ∀ (l : List γ) (n : ℕ), n ≤ l.foldl (fun m p => max m (h p)) n := by
  intro l
  induction l with
  | nil => intro n; simp
  | cons p rest ih =>
    intro n
    calc n ≤ max n (h p) := le_max_left _ _
    _ ≤ _ := ih _

theorem foldl_max_le {γ : Type} (h : γ → ℕ) :
    ∀ (l : List γ) (n : ℕ) (p : γ), p ∈ l →
      h p ≤ l.foldl (fun m q => max m (h q)) n := by
  intro l
  induction l with
  | nil => intro n p hp; simp at hp
  | cons q rest ih =>
    intro n p hp
    rcases List.mem_cons.mp hp with rfl | hp'
    · calc h p ≤ max n (h p) := le_max_right _ _
      _ ≤ _ := foldl_max_init h rest _
    · exact ih _ p hp'

theorem foldl_max_attained {γ : Type} (h : γ → ℕ) :
    ∀ (l : List γ) (n : ℕ),
      l.foldl (fun m q => max m (h q)) n = n ∨
        ∃ p ∈ l, l.foldl (fun m q => max m (h q)) n = h p := by
  intro l
  induction l with
  | nil => intro n; left; rfl
  | cons q rest ih =>
    intro n
    rcases ih (max n (h q)) with h1 | ⟨p, hp, h2⟩
    · simp only [List.foldl_cons]
      rcases max_cases n (h q) with ⟨he, _⟩ | ⟨he, _⟩
      · left; rw [h1, he]
      · right; exact ⟨q, List.mem_cons_self .., by rw [h1, he]⟩
    · right
      exact ⟨p, List.mem_cons_of_mem _ hp, h2⟩

theorem bestSize_ge {a b : List Char} {p : ℕ × ℕ} (hp : p ∈ lexPairs a b) :
    cpl (a.drop p.1) (b.drop p.2) ≤ bestSize a b := by
  unfold bestSize
  exact foldl_max_le (fun q : ℕ × ℕ => cpl (a.drop q.1) (b.drop q.2)) _ _ _ hp

theorem bestSize_attained {a b : List Char} :
    bestSize a b = 0 ∨
      ∃ p ∈ lexPairs a b, bestSize a b = cpl (a.drop p.1) (b.drop p.2) := by
  unfold bestSize
  exact foldl_max_attained (fun q : ℕ × ℕ => cpl (a.drop q.1) (b.drop q.2)) _ _

/-- The block returned by `findBest` fits inside both strings. -/
theorem findBest_bounds {a b : List Char} {i j k : ℕ}
    (h : findBest a b = (i, j, k)) :
    i + k ≤ a.length ∧ j + k ≤ b.length := by
  unfold findBest at h
  rcases hf : (lexPairs a b).find? fun p =>
      cpl (a.drop p.1) (b.drop p.2) = bestSize a b with _ | p
  · rw [hf] at h
    injection h with h1 h2
    injection h2 with h2 h3
    omega
  · rw [hf] at h
    injection h with h1 h2
    injection h2 with h2 h3
    subst h1; subst h2; subst h3
    have hmem := List.mem_of_find?_eq_some hf
    have hpred := List.find?_some hf
    have hij := mem_lexPairs.mp hmem
    have hk : cpl (a.drop p.1) (b.drop p.2) = bestSize a b := by
      simpa using hpred
    constructor
    · have := cpl_le_left (a.drop p.1) (b.drop p.2)
      rw [hk, List.length_drop] at this
      omega
    · have := cpl_le_right (a.drop p.1) (b.drop p.2)
      rw [hk, List.length_drop] at this
      omega

theorem tmFuel_le : ∀ (fuel : ℕ) (a b : List Char),
    tmFuel fuel a b ≤ min a.length b.length := by
  intro fuel
  induction fuel with
  | zero => intro a b; simp [tmFuel]
  | succ n ih =>
    intro a b
    rcases hf : findBest a b with ⟨i, j, k⟩
    by_cases hk : k = 0
    · simp [tmFuel, hf, hk]
    · have hb := findBest_bounds hf
      have h1 := ih (a.take i) (b.take j)
      have h2 := ih (a.drop (i + k)) (b.drop (j + k))
      simp only [List.length_take, List.length_drop] at h1 h2
      simp only [tmFuel, hf, hk, if_false]
      omega

theorem totalMatches_le (a b : List Char) :
    totalMatches a b ≤ min a.length b.length :=
  tmFuel_le _ _ _

theorem ratio_nonneg (a b : List Char) : 0 ≤ ratio a b := by
  unfold ratio
  by_cases h : a.length + b.length = 0
  · simp [h]
  · simp only [h, if_false]
    apply div_nonneg
    · have : (0 : ℚ) ≤ ((2 * totalMatches a b : ℕ) : ℚ) := by
        exact_mod_cast Nat.zero_le _
      push_cast at this
      exact this
    · have : (0 : ℚ) ≤ ((a.length + b.length : ℕ) : ℚ) := by
        exact_mod_cast Nat.zero_le _
      push_cast at this
      exact this

theorem ratio_le_one (a b : List Char) : ratio a b ≤ 1 := by
  unfold ratio
  by_cases h : a.length + b.length = 0
  · simp [h]
  · simp only [h, if_false]
    have hpos : (0 : ℚ) < (a.length : ℚ) + (b.length : ℚ) := by
      have : (0 : ℚ) < ((a.length + b.length : ℕ) : ℚ) := by
        exact_mod_cast Nat.pos_of_ne_zero h
      push_cast at this
      exact this
    rw [div_le_one hpos]
    have := totalMatches_le a b
    have h2 : 2 * totalMatches a b ≤ a.length + b.length := by omega
    exact_mod_cast h2

theorem lexPairs_nil_right (a : List Char) : lexPairs a [] = [] := by
  simp [lexPairs]

theorem totalMatches_nil_left (b : List Char) : totalMatches [] b = 0 := rfl

theorem totalMatches_nil_right (a : List Char) : totalMatches a [] = 0 := by
  unfold totalMatches
  cases ha : a.length with
  | zero => simp [tmFuel]
  | succ n =>
    have hfb : findBest a [] = (0, 0, 0) := by
      unfold findBest
      rw [lexPairs_nil_right]
      rfl
    simp [tmFuel, hfb]

theorem tmFuel_nil_nil : ∀ fuel : ℕ, tmFuel fuel [] [] = 0 := by
  intro fuel
  cases fuel with
  | zero => rfl
  | succ n => rfl

/-- `charSimilarity` of two identical strings is 1 (including the empty
string, where the source's `_calculate_ratio` returns 1.0). -/
theorem ratio_self (a : List Char) : ratio a a = 1 := by
  unfold ratio
  by_cases h : a.length + a.length = 0
  · simp [h]
  · have ha : a ≠ [] := by
      intro hnil
      rw [hnil] at h
      simp at h
    have hn : a.length ≠ 0 := by
      intro h0
      exact h (by omega)
    -- the longest matching block of `a` against itself is all of `a`
    have hbs : bestSize a a = a.length := by
      have hmem : ((0, 0) : ℕ × ℕ) ∈ lexPairs a a :=
        mem_lexPairs.mpr ⟨Nat.pos_of_ne_zero hn, Nat.pos_of_ne_zero hn⟩
      have hge := bestSize_ge (a := a) (b := a) hmem
      simp only [List.drop_zero, cpl_self] at hge
      rcases bestSize_attained (a := a) (b := a) with h0 | ⟨p, hp, he⟩
      · omega
      · have := cpl_le_left (a.drop p.1) (a.drop p.2)
        rw [List.length_drop] at this
        omega
    have hhead : ∃ rest, lexPairs a a = (0, 0) :: rest := by
      obtain ⟨n, hn'⟩ : ∃ n, a.length = n + 1 := by
        rcases Nat.exists_eq_succ_of_ne_zero hn with ⟨n, hn'⟩
        exact ⟨n, hn'⟩
      refine ⟨((List.range a.length).map fun j => ((0 : ℕ), j)).tail ++
        ((List.range a.length).tail.flatMap fun i =>
          (List.range a.length).map fun j => (i, j)), ?_⟩
      rw [lexPairs, hn', List.range_succ_eq_map]
      simp [List.flatMap_cons, List.range_succ_eq_map, Function.comp]
    obtain ⟨rest, hrest⟩ := hhead
    have hfb : findBest a a = (0, 0, a.length) := by
      unfold findBest
      rw [hrest, List.find?_cons_of_pos _ (by simp [cpl_self, hbs]), hbs]
    have htm : totalMatches a a = a.length := by
      unfold totalMatches
      rcases hl : a.length with _ | n
      · omega
      · rw [hl] at hfb
        have hd : a.drop (n + 1) = [] := List.drop_eq_nil_of_le (by omega)
        simp [tmFuel, hfb, hd, tmFuel_nil_nil]
    rw [if_neg h, htm]
    have hq : (a.length : ℚ) ≠ 0 := Nat.cast_ne_zero.mpr hn
    field_simp
    ring

/-- `charSimilarity` against the empty string is 0 when the other string
is non-empty. -/
theorem ratio_nil_left {b : List Char} (hb : b ≠ []) : ratio [] b = 0 := by
  unfold ratio
  simp [totalMatches_nil_left, hb]

theorem ratio_nil_right {a : List Char} (ha : a ≠ []) : ratio a [] = 0 := by
  unfold ratio
  simp [totalMatches_nil_right, ha]

/-! ### Characterizing the scan loop of the scorer -/

theorem scanPairs_one (floor : ℚ) (ws1 ws2 : List (List Char)) :
    ∀ (l : List (ℕ × ℕ)) (tot : ℚ),
      scanPairs floor ws1 ws2 l 1 tot =
        match l.filter fun p => decide (floor ≤ wordSim ws1 ws2 p) with
        | p :: _ => ((tot + wordSim ws1 ws2 p) / 2) * 100
        | [] => 0 := by
  intro l
  induction l with
  | nil => intro tot; simp [scanPairs]
  | cons p rest ih =>
    intro tot
    by_cases hs : floor ≤ wordSim ws1 ws2 p
    · have h2 : ((1 + 1 : ℕ) : ℚ) = 2 := by norm_num
      simp [scanPairs, hs, h2]
    · simp [scanPairs, hs, ih tot]

theorem scanPairs_zero (floor : ℚ) (ws1 ws2 : List (List Char)) :
    ∀ l : List (ℕ × ℕ),
      scanPairs floor ws1 ws2 l 0 0 =
        match l.filter fun p => decide (floor ≤ wordSim ws1 ws2 p) with
        | p :: q :: _ => ((wordSim ws1 ws2 p + wordSim ws1 ws2 q) / 2) * 100
        | _ => 0 := by
  intro l
  induction l with
  | nil => simp [scanPairs]
  | cons p rest ih =>
    by_cases hs : floor ≤ wordSim ws1 ws2 p
    · simp only [scanPairs, hs, if_true, List.filter_cons,
        decide_eq_true_eq, Nat.zero_add]
      have h21 : ¬(2 ≤ (1 : ℕ)) := by omega
      simp only [h21, if_false, if_true]
      rw [scanPairs_one]
      rcases hf : rest.filter fun q => decide (floor ≤ wordSim ws1 ws2 q) with
        _ | ⟨q, rest'⟩
      · simp [hs, hf]
      · simp [hs, hf]
    · simp only [scanPairs, hs, if_false, List.filter_cons,
        decide_eq_true_eq]
      rw [ih]

/-- The scorer agrees with the claim-side first-two-qualifying-pairs
description. -/
theorem ultra_strict_match_eq_claim (floor : ℚ) (name1 name2 : String) :
    ultra_strict_match floor name1 name2 =
      claimPositionalScore floor name1 name2 := by
  unfold ultra_strict_match claimPositionalScore
  by_cases h : (pySplit (clean_name name1)).length < 2 ∨
      (pySplit (clean_name name2)).length < 2
  · simp [h]
  · simp only [h, if_false]
    rw [scanPairs_zero]
    rfl

theorem filter_length_mono {γ : Type} (p q : γ → Bool)
    (h : ∀ x, p x = true → q x = true) :
    ∀ l : List γ, (l.filter p).length ≤ (l.filter q).length := by
  intro l
  induction l with
  | nil => simp
  | cons x rest ih =>
    by_cases hx : p x = true
    · have hq := h x hx
      simp [List.filter_cons, hx, hq]
      omega
    · have hx' : p x = false := by
        cases hpx : p x
        · rfl
        · exact absurd hpx hx
      simp only [List.filter_cons, hx']
      cases hqx : q x <;> simp
      · exact ih
      · calc (rest.filter p).length ≤ (rest.filter q).length := ih
        _ ≤ (x :: rest.filter q).length := by simp

/-- Qualifying token pairs have similarity at least the floor. -/
theorem claimQualifying_sim {floor : ℚ} {ws1 ws2 : List (List Char)}
    {p : ℕ × ℕ} (hp : p ∈ claimQualifying floor ws1 ws2) :
    floor ≤ wordSim ws1 ws2 p := by
  unfold claimQualifying at hp
  have := List.of_mem_filter hp
  simpa using this

/-! ### Enumeration lemmas -/

theorem enumFrom_mem {α : Type} :
    ∀ (l : List α) (n : ℕ) (p : ℕ × α), p ∈ enumFrom n l →
      n ≤ p.1 ∧ l.get? (p.1 - n) = some p.2 := by
  intro l
  induction l with
  | nil => intro n p h; simp [enumFrom] at h
  | cons a t ih =>
    intro n p h
    rcases List.mem_cons.mp h with rfl | h'
    · refine ⟨le_refl _, ?_⟩
      simp
    · obtain ⟨h1, h2⟩ := ih (n + 1) p h'
      refine ⟨by omega, ?_⟩
      have hk : p.1 - n = (p.1 - (n + 1)) + 1 := by omega
      rw [hk, List.get?_cons_succ]
      exact h2

theorem get?_mem_enumFrom {α : Type} :
    ∀ (l : List α) (k n : ℕ) (a : α), l.get? k = some a →
      (n + k, a) ∈ enumFrom n l := by
  intro l
  induction l with
  | nil => intro k n a h; simp at h
  | cons b t ih =>
    intro k n a h
    cases k with
    | zero =>
      simp only [List.get?_cons_zero, Option.some.injEq] at h
      subst h
      simp [enumFrom]
    | succ k' =>
      rw [List.get?_cons_succ] at h
      have := ih k' (n + 1) a h
      have hx : n + (k' + 1) = (n + 1) + k' := by omega
      rw [hx]
      exact List.mem_cons_of_mem _ this

theorem enumFrom_pairwise {α : Type} :
    ∀ (l : List α) (n : ℕ),
      (enumFrom n l).Pairwise fun p q => p.1 < q.1 := by
  intro l
  induction l with
  | nil => intro n; simp [enumFrom]
  | cons a t ih =>
    intro n
    rw [enumFrom]
    refine List.pairwise_cons.mpr ⟨?_, ih (n + 1)⟩
    intro q hq
    have := (enumFrom_mem t (n + 1) q hq).1
    simpa using by omega

theorem mem_pyEnum {α : Type} {l : List α} {p : ℕ × α} :
    p ∈ pyEnum l ↔ l.get? p.1 = some p.2 := by
  constructor
  · intro h
    have := (enumFrom_mem l 0 p h).2
    simpa using this
  · intro h
    have := get?_mem_enumFrom l p.1 0 p.2 h
    simpa using this

theorem pyEnum_pairwise {α : Type} (l : List α) :
    (pyEnum l).Pairwise fun p q => p.1 < q.1 :=
  enumFrom_pairwise l 0

theorem pyEnum_exists_idx {α : Type} {l : List α} {i : ℕ} (h : i < l.length) :
    ∃ p ∈ pyEnum l, p.1 = i := by
  have hg : l.get? i = some (l.get ⟨i, h⟩) := List.get?_eq_get h
  exact ⟨(i, l.get ⟨i, h⟩), mem_pyEnum.mpr hg, rfl⟩

/-! ### Lemmas about the candidate scan -/

theorem bestStep_fst_le {α : Type} (f : α → Option ℚ) (m1 : Finset ℕ)
    (acc : ℚ × Option (ℕ × α)) (p : ℕ × α) :
    acc.1 ≤ (bestStep f m1 acc p).1 := by
  unfold bestStep
  by_cases hm : p.1 ∈ m1
  · simp [hm]
  · simp only [hm, if_false]
    rcases hf : f p.2 with _ | c
    · simp
    · by_cases hc : acc.1 < c
      · simp [hc, le_of_lt hc]
      · simp [hc]

theorem bestFold_fst_le {α : Type} (f : α → Option ℚ) (m1 : Finset ℕ) :
    ∀ (l : List (ℕ × α)) (acc : ℚ × Option (ℕ × α)),
      acc.1 ≤ (l.foldl (bestStep f m1) acc).1 := by
  intro l
  induction l with
  | nil => intro acc; simp
  | cons p t ih =>
    intro acc
    calc acc.1 ≤ (bestStep f m1 acc p).1 := bestStep_fst_le f m1 acc p
    _ ≤ _ := ih _

/-- Either the scan never improves on the accumulator, or it commits to
some unconsumed candidate from the list whose score is the final best and
strictly exceeds the incoming best. -/
theorem bestFold_cases {α : Type} (f : α → Option ℚ) (m1 : Finset ℕ) :
    ∀ (l : List (ℕ × α)) (acc : ℚ × Option (ℕ × α)),
      l.foldl (bestStep f m1) acc = acc ∨
        ∃ q ∈ l, (l.foldl (bestStep f m1) acc).2 = some q ∧ q.1 ∉ m1 ∧
          f q.2 = some (l.foldl (bestStep f m1) acc).1 ∧
          acc.1 < (l.foldl (bestStep f m1) acc).1 := by
  intro l
  induction l with
  | nil => intro acc; left; rfl
  | cons p t ih =>
    intro acc
    by_cases hm : p.1 ∈ m1
    · have hstep : bestStep f m1 acc p = acc := by simp [bestStep, hm]
      simp only [List.foldl_cons, hstep]
      rcases ih acc with h | ⟨q, hq, h1, h2, h3, h4⟩
      · left; exact h
      · right; exact ⟨q, List.mem_cons_of_mem _ hq, h1, h2, h3, h4⟩
    · rcases hf : f p.2 with _ | c
      · have hstep : bestStep f m1 acc p = acc := by simp [bestStep, hm, hf]
        simp only [List.foldl_cons, hstep]
        rcases ih acc with h | ⟨q, hq, h1, h2, h3, h4⟩
        · left; exact h
        · right; exact ⟨q, List.mem_cons_of_mem _ hq, h1, h2, h3, h4⟩
      · by_cases hc : acc.1 < c
        · have hstep : bestStep f m1 acc p = (c, some p) := by
            simp [bestStep, hm, hf, hc]
          simp only [List.foldl_cons, hstep]
          rcases ih (c, some p) with h | ⟨q, hq, h1, h2, h3, h4⟩
          · right
            refine ⟨p, List.mem_cons_self .., ?_, hm, ?_, ?_⟩
            · rw [h]
            · rw [h]; exact hf
            · rw [h]; exact hc
          · right
            refine ⟨q, List.mem_cons_of_mem _ hq, h1, h2, h3, ?_⟩
            calc acc.1 < c := hc
            _ ≤ _ := by
              have := bestFold_fst_le f m1 t (c, some p)
              simpa using this
        · have hstep : bestStep f m1 acc p = acc := by
            simp [bestStep, hm, hf, hc]
          simp only [List.foldl_cons, hstep]
          rcases ih acc with h | ⟨q, hq, h1, h2, h3, h4⟩
          · left; exact h
          · right; exact ⟨q, List.mem_cons_of_mem _ hq, h1, h2, h3, h4⟩

/-- Every unconsumed candidate score is bounded by the final best. -/
theorem bestFold_max {α : Type} (f : α → Option ℚ) (m1 : Finset ℕ) :
    ∀ (l : List (ℕ × α)) (acc : ℚ × Option (ℕ × α)) (p : ℕ × α),
      p ∈ l → p.1 ∉ m1 → ∀ c, f p.2 = some c →
        c ≤ (l.foldl (bestStep f m1) acc).1 := by
  intro l
  induction l with
  | nil => intro acc p hp; simp at hp
  | cons hd t ih =>
    intro acc p hp hm c hc
    rcases List.mem_cons.mp hp with rfl | hp'
    · by_cases hlt : acc.1 < c
      · have hstep : bestStep f m1 acc p = (c, some p) := by
          simp [bestStep, hm, hc, hlt]
        simp only [List.foldl_cons, hstep]
        have := bestFold_fst_le f m1 t (c, some p)
        simpa using this
      · push_neg at hlt
        simp only [List.foldl_cons]
        calc c ≤ acc.1 := hlt
        _ ≤ (bestStep f m1 acc p).1 := bestStep_fst_le f m1 acc p
        _ ≤ _ := bestFold_fst_le f m1 t _
    · simp only [List.foldl_cons]
      exact ih (bestStep f m1 acc hd) p hp' hm c hc

/-- If the scan commits to candidate `q`, every unconsumed candidate
strictly earlier in the list scores strictly below the final best (the
first-encountered maximum wins). -/
theorem bestFold_first {α : Type} (f : α → Option ℚ) (m1 : Finset ℕ) :
    ∀ (l : List (ℕ × α)) (acc : ℚ × Option (ℕ × α)),
      (l.Pairwise fun p q => p.1 < q.1) →
      (∀ p ∈ l, ∀ q₀, acc.2 = some q₀ → q₀.1 < p.1) →
      ∀ q, (l.foldl (bestStep f m1) acc).2 = some q →
      ∀ p ∈ l, p.1 ∉ m1 → p.1 < q.1 → ∀ c, f p.2 = some c →
        c < (l.foldl (bestStep f m1) acc).1 := by
  intro l
  induction l with
  | nil => intro acc _ _ q _ p hp; simp at hp
  | cons h t ih =>
    intro acc hpw hacc q hq p hp hm hlt c hc
    have hpw' := List.pairwise_cons.mp hpw
    rcases List.mem_cons.mp hp with rfl | hp'
    · -- p is the head; q must come from a later strict improvement
      rcases bestFold_cases f m1 t (bestStep f m1 acc p) with heq | hex
      · -- the tail never improves: the final state is the head step
        simp only [List.foldl_cons] at hq ⊢
        rw [heq] at hq ⊢
        by_cases hlt' : acc.1 < c
        · have hstep : bestStep f m1 acc p = (c, some p) := by
            simp [bestStep, hm, hc, hlt']
          rw [hstep] at hq
          simp only at hq
          injection hq with hq'
          rw [← hq'] at hlt
          omega
        · push_neg at hlt'
          have hstep : bestStep f m1 acc p = acc := by
            simp [bestStep, hm, hc, hlt']
          rw [hstep] at hq
          have := hacc p (List.mem_cons_self ..) q hq
          omega
      · obtain ⟨q', hq't, hq'2, _, _, hq'lt⟩ := hex
        simp only [List.foldl_cons] at hq ⊢
        have hcle : c ≤ (bestStep f m1 acc p).1 := by
          by_cases hx : acc.1 < c
          · have hstep : bestStep f m1 acc p = (c, some p) := by
              simp [bestStep, hm, hc, hx]
            rw [hstep]
          · push_neg at hx
            have h1 := bestStep_fst_le f m1 acc p
            linarith
        calc c ≤ (bestStep f m1 acc p).1 := hcle
        _ < _ := hq'lt
    · -- p is in the tail: apply the induction hypothesis after the head step
      simp only [List.foldl_cons] at hq ⊢
      refine ih (bestStep f m1 acc h) hpw'.2 ?_ q hq p hp' hm hlt c hc
      intro r hr q₀ hq₀
      unfold bestStep at hq₀
      by_cases hmh : h.1 ∈ m1
      · simp only [hmh, if_true] at hq₀
        exact hacc r (List.mem_cons_of_mem _ hr) q₀ hq₀
      · simp only [hmh, if_false] at hq₀
        rcases hfh : f h.2 with _ | ch
        · rw [hfh] at hq₀
          exact hacc r (List.mem_cons_of_mem _ hr) q₀ hq₀
        · rw [hfh] at hq₀
          simp only at hq₀
          by_cases hch : acc.1 < ch
          · simp only [hch, if_true] at hq₀
            injection hq₀ with hq₀'
            rw [← hq₀']
            exact hpw'.1 r hr
          · simp only [hch, if_false] at hq₀
            exact hacc r (List.mem_cons_of_mem _ hr) q₀ hq₀

theorem bestScan_some {α : Type} {f : α → Option ℚ} {df1 : List α}
    {m1 : Finset ℕ} {q : ℕ × α}
    (h : (bestScan f df1 m1).2 = some q) :
    q ∈ pyEnum df1 ∧ q.1 ∉ m1 ∧ f q.2 = some (bestScan f df1 m1).1 ∧
      0 < (bestScan f df1 m1).1 := by
  unfold bestScan at h ⊢
  rcases bestFold_cases f m1 (pyEnum df1) (0, none) with heq | hex
  · rw [heq] at h
    simp at h
  · obtain ⟨q', hq', h1, h2, h3, h4⟩ := hex
    rw [h1] at h
    injection h with h'
    subst h'
    exact ⟨hq', h2, h3, by simpa using h4⟩

theorem bestScan_none {α : Type} {f : α → Option ℚ} {df1 : List α}
    {m1 : Finset ℕ} (h : (bestScan f df1 m1).2 = none) :
    (bestScan f df1 m1).1 = 0 := by
  unfold bestScan at h ⊢
  rcases bestFold_cases f m1 (pyEnum df1) (0, none) with heq | hex
  · rw [heq]
  · obtain ⟨q', _, h1, _, _, _⟩ := hex
    rw [h1] at h
    simp at h

theorem bestScan_max {α : Type} (f : α → Option ℚ) (df1 : List α)
    (m1 : Finset ℕ) :
    ∀ p ∈ pyEnum df1, p.1 ∉ m1 → ∀ c, f p.2 = some c →
      c ≤ (bestScan f df1 m1).1 := by
  intro p hp hm c hc
  exact bestFold_max f m1 (pyEnum df1) (0, none) p hp hm c hc

theorem bestScan_first {α : Type} {f : α → Option ℚ} {df1 : List α}
    {m1 : Finset ℕ} {q : ℕ × α}
    (h : (bestScan f df1 m1).2 = some q) :
    ∀ p ∈ pyEnum df1, p.1 ∉ m1 → p.1 < q.1 → ∀ c, f p.2 = some c →
      c < (bestScan f df1 m1).1 := by
  intro p hp hm hlt c hc
  exact bestFold_first f m1 (pyEnum df1) (0, none) (pyEnum_pairwise df1)
    (by intro r _ q₀ h₀; simp at h₀) q h p hp hm hlt c hc

/-- If some unconsumed candidate has a positive score, the scan commits
to a candidate. -/
theorem bestScan_isSome {α : Type} {f : α → Option ℚ} {df1 : List α}
    {m1 : Finset ℕ} {p : ℕ × α} (hp : p ∈ pyEnum df1) (hm : p.1 ∉ m1)
    {c : ℚ} (hc : f p.2 = some c) (hpos : 0 < c) :
    ∃ q, (bestScan f df1 m1).2 = some q := by
  have hle := bestScan_max f df1 m1 p hp hm c hc
  rcases hs : (bestScan f df1 m1).2 with _ | q
  · have := bestScan_none hs
    linarith
  · exact ⟨q, rfl⟩

/-! ### Consumption invariant statements -/

theorem idx1Count_append (rs rs' : List Row) (i : ℕ) :
    idx1Count (rs ++ rs') i = idx1Count rs i + idx1Count rs' i :=
  List.countP_append _ _ _

theorem idx2Count_append (rs rs' : List Row) (i : ℕ) :
    idx2Count (rs ++ rs') i = idx2Count rs i + idx2Count rs' i :=
  List.countP_append _ _ _

theorem idx1Count_single_eq {r : Row} {i : ℕ} (h : r.idx1 = some i) :
    idx1Count [r] i = 1 := by simp [idx1Count, h]

theorem idx1Count_single_ne {r : Row} {i : ℕ} (h : ¬r.idx1 = some i) :
    idx1Count [r] i = 0 := by simp [idx1Count, h]

theorem idx2Count_single_eq {r : Row} {i : ℕ} (h : r.idx2 = some i) :
    idx2Count [r] i = 1 := by simp [idx2Count, h]

theorem idx2Count_single_ne {r : Row} {i : ℕ} (h : ¬r.idx2 = some i) :
    idx2Count [r] i = 0 := by simp [idx2Count, h]

theorem pass1Step_inv {α β : Type} {f : β → α → Option ℚ}
    {cutoff vsplit : ℚ} {df1 : List α}
    {st : EngineState} (hst : StInv st) {p : ℕ × β} (hp2 : p.1 ∉ st.m2) :
    StInv (pass1Step f cutoff vsplit df1 st p) ∧
      st.m2 ⊆ (pass1Step f cutoff vsplit df1 st p).m2 ∧
      (pass1Step f cutoff vsplit df1 st p).m2 ⊆ insert p.1 st.m2 := by
  obtain ⟨h1, h2, h3⟩ := hst
  unfold pass1Step
  by_cases hc : cutoff ≤ (bestScan (f p.2) df1 st.m1).1
  · rcases hq : (bestScan (f p.2) df1 st.m1).2 with _ | q
    · simp only [hc, if_true, hq]
      exact ⟨⟨h1, h2, h3⟩, Finset.Subset.refl _, Finset.subset_insert _ _⟩
    · obtain ⟨hmem, hm1, hfq, hpos⟩ := bestScan_some hq
      simp only [hc, if_true, hq]
      refine ⟨⟨?_, ?_, ?_⟩, ?_, ?_⟩
      · intro i
        rw [idx1Count_append]
        by_cases hi : i = q.1
        · subst hi
          rw [idx1Count_single_eq rfl, h1 q.1, if_neg hm1]
          simp
        · rw [idx1Count_single_ne (by simp [Ne.symm hi]), h1 i]
          simp [Finset.mem_insert, hi]
      · intro i
        rw [idx2Count_append]
        by_cases hi : i = p.1
        · subst hi
          rw [idx2Count_single_eq rfl, h2 p.1, if_neg hp2]
          simp
        · rw [idx2Count_single_ne (by simp [Ne.symm hi]), h2 i]
          simp [Finset.mem_insert, hi]
      · intro r hr
        rcases List.mem_append.mp hr with hr' | hr'
        · exact h3 r hr'
        · simp only [List.mem_singleton] at hr'
          subst hr'
          exact ⟨Or.inl rfl, by simp, by simp⟩
      · exact Finset.subset_insert _ _
      · exact Finset.Subset.refl _
  · simp only [hc, if_false]
    exact ⟨⟨h1, h2, h3⟩, Finset.Subset.refl _, Finset.subset_insert _ _⟩

theorem pass1_fold_inv {α β : Type} (f : β → α → Option ℚ)
    (cutoff vsplit : ℚ) (df1 : List α) :
    ∀ (l : List (ℕ × β)) (st : EngineState), StInv st →
      (∀ p ∈ l, p.1 ∉ st.m2) → (l.Pairwise fun p q => p.1 < q.1) →
      StInv (l.foldl (pass1Step f cutoff vsplit df1) st) := by
  intro l
  induction l with
  | nil => intro st hst _ _; exact hst
  | cons p t ih =>
    intro st hst hnm hpw
    have hp2 := hnm p (List.mem_cons_self ..)
    obtain ⟨hst', _, hsub⟩ := pass1Step_inv hst hp2
    have hpw' := List.pairwise_cons.mp hpw
    simp only [List.foldl_cons]
    refine ih _ hst' ?_ hpw'.2
    intro r hr hmem
    have hrs := hsub hmem
    rcases Finset.mem_insert.mp hrs with he | hm
    · exact absurd he (by have := hpw'.1 r hr; omega)
    · exact hnm r (List.mem_cons_of_mem _ hr) hm

theorem pass2Step_inv {α β : Type} {g : β → α → Option ℚ}
    {truthy : α → Bool} {df1 : List α} {st : EngineState} (hst : StInv st)
    (p : ℕ × β) : StInv (pass2Step g truthy df1 st p) := by
  obtain ⟨h1, h2, h3⟩ := hst
  unfold pass2Step
  by_cases hm2 : p.1 ∈ st.m2
  · simp only [hm2, if_true]
    exact ⟨h1, h2, h3⟩
  · rcases hq : (bestScan (g p.2) df1 st.m1).2 with _ | q
    · simp only [hm2, if_false, hq]
      exact ⟨h1, h2, h3⟩
    · obtain ⟨hmem, hm1, hfq, hpos⟩ := bestScan_some hq
      by_cases ht : truthy q.2
      · simp only [hm2, if_false, hq, ht, if_true]
        refine ⟨?_, ?_, ?_⟩
        · intro i
          rw [idx1Count_append]
          by_cases hi : i = q.1
          · subst hi
            rw [idx1Count_single_eq rfl, h1 q.1, if_neg hm1]
            simp
          · rw [idx1Count_single_ne (by simp [Ne.symm hi]), h1 i]
            simp [Finset.mem_insert, hi]
        · intro i
          rw [idx2Count_append]
          by_cases hi : i = p.1
          · subst hi
            rw [idx2Count_single_eq rfl, h2 p.1, if_neg hm2]
            simp
          · rw [idx2Count_single_ne (by simp [Ne.symm hi]), h2 i]
            simp [Finset.mem_insert, hi]
        · intro r hr
          rcases List.mem_append.mp hr with hr' | hr'
          · exact h3 r hr'
          · simp only [List.mem_singleton] at hr'
            subst hr'
            exact ⟨Or.inr rfl, by simp, by simp⟩
      · simp only [hm2, if_false, hq, ht]
        exact ⟨h1, h2, h3⟩

theorem pass2_fold_inv {α β : Type} (g : β → α → Option ℚ)
    (truthy : α → Bool) (df1 : List α) :
    ∀ (l : List (ℕ × β)) (st : EngineState), StInv st →
      StInv (l.foldl (pass2Step g truthy df1) st) := by
  intro l
  induction l with
  | nil => intro st hst; exact hst
  | cons p t ih =>
    intro st hst
    simp only [List.foldl_cons]
    exact ih _ (pass2Step_inv hst p)

/-- Pass 3 leaves the consumed sets and primary counts unchanged and gives
each unconsumed listed secondary exactly one Possible row. -/
theorem pass3_fold {β : Type} :
    ∀ (l : List (ℕ × β)) (st : EngineState),
      (l.Pairwise fun p q => p.1 < q.1) →
      (l.foldl pass3Step st).m1 = st.m1 ∧
      (l.foldl pass3Step st).m2 = st.m2 ∧
      (∀ i, idx1Count (l.foldl pass3Step st).results i =
        idx1Count st.results i) ∧
      (∀ i, idx2Count (l.foldl pass3Step st).results i =
        idx2Count st.results i +
          (if i ∉ st.m2 ∧ ∃ p ∈ l, p.1 = i then 1 else 0)) ∧
      (∀ r ∈ (l.foldl pass3Step st).results,
        r ∈ st.results ∨ (r.mtype = "Possible Match" ∧ r.idx1 = none)) := by
  intro l
  induction l with
  | nil =>
    intro st _
    refine ⟨rfl, rfl, fun i => rfl, fun i => ?_, fun r hr => Or.inl hr⟩
    simp
  | cons p t ih =>
    intro st hpw
    have hpw' := List.pairwise_cons.mp hpw
    by_cases hm2 : p.1 ∈ st.m2
    · have hstep : pass3Step st p = st := by simp [pass3Step, hm2]
      simp only [List.foldl_cons, hstep]
      obtain ⟨g1, g2, g3, g4, g5⟩ := ih st hpw'.2
      refine ⟨g1, g2, g3, fun i => ?_, g5⟩
      rw [g4 i]
      congr 1
      apply if_congr ?_ rfl rfl
      refine and_congr_right fun hi2 => ⟨?_, ?_⟩
      · rintro ⟨q, hq, rfl⟩
        exact ⟨q, List.mem_cons_of_mem _ hq, rfl⟩
      · rintro ⟨q, hq, rfl⟩
        rcases List.mem_cons.mp hq with rfl | hq'
        · exact absurd hm2 hi2
        · exact ⟨q, hq', rfl⟩
    · have hstep : pass3Step st p =
          ⟨st.results ++
            [⟨"Possible Match", 0, "Manual Review Needed", none, some p.1⟩],
            st.m1, st.m2⟩ := by simp [pass3Step, hm2]
      simp only [List.foldl_cons, hstep]
      obtain ⟨g1, g2, g3, g4, g5⟩ := ih
        ⟨st.results ++
          [⟨"Possible Match", 0, "Manual Review Needed", none, some p.1⟩],
          st.m1, st.m2⟩ hpw'.2
      dsimp only at g1 g2 g3 g4 g5
      refine ⟨g1, g2, fun i => ?_, fun i => ?_, fun r hr => ?_⟩
      · rw [g3 i, idx1Count_append,
          idx1Count_single_ne (by simp)]
        omega
      · rw [g4 i, idx2Count_append]
        by_cases hip : i = p.1
        · subst hip
          have hnt : ¬ ∃ q ∈ t, q.1 = p.1 := by
            rintro ⟨q, hq, he⟩
            have := hpw'.1 q hq
            omega
          have e1 : idx2Count
              [(⟨"Possible Match", 0, "Manual Review Needed", none,
                some p.1⟩ : Row)] p.1 = 1 := idx2Count_single_eq rfl
          have e2 : (if p.1 ∉ st.m2 ∧ ∃ q ∈ t, q.1 = p.1 then 1 else 0) =
              0 := by
            apply if_neg
            rintro ⟨-, hx⟩
            exact hnt hx
          have e3 :
              (if p.1 ∉ st.m2 ∧ ∃ q ∈ p :: t, q.1 = p.1 then 1 else 0) =
              1 := by
            apply if_pos
            exact ⟨hm2, p, List.mem_cons_self .., rfl⟩
          rw [e1, e2, e3]
        · have e1 : idx2Count
              [(⟨"Possible Match", 0, "Manual Review Needed", none,
                some p.1⟩ : Row)] i = 0 :=
            idx2Count_single_ne (by simp [Ne.symm hip])
          have hiff : (i ∉ st.m2 ∧ ∃ q ∈ t, q.1 = i) ↔
              (i ∉ st.m2 ∧ ∃ q ∈ p :: t, q.1 = i) := by
            refine and_congr_right fun hi2 => ⟨?_, ?_⟩
            · rintro ⟨q, hq, rfl⟩
              exact ⟨q, List.mem_cons_of_mem _ hq, rfl⟩
            · rintro ⟨q, hq, rfl⟩
              rcases List.mem_cons.mp hq with rfl | hq'
              · exact absurd rfl hip
              · exact ⟨q, hq', rfl⟩
          rw [e1, if_congr hiff rfl rfl]
          omega
      · rcases g5 r hr with hr' | hr'
        · rcases List.mem_append.mp hr' with hr2 | hr2
          · exact Or.inl hr2
          · simp only [List.mem_singleton] at hr2
            subst hr2
            exact Or.inr ⟨rfl, rfl⟩
        · exact Or.inr hr'

/-- Pass 4, symmetrically, gives each unconsumed listed primary exactly
one No-Match row. -/
theorem pass4_fold {α : Type} :
    ∀ (l : List (ℕ × α)) (st : EngineState),
      (l.Pairwise fun p q => p.1 < q.1) →
      (l.foldl pass4Step st).m1 = st.m1 ∧
      (l.foldl pass4Step st).m2 = st.m2 ∧
      (∀ i, idx2Count (l.foldl pass4Step st).results i =
        idx2Count st.results i) ∧
      (∀ i, idx1Count (l.foldl pass4Step st).results i =
        idx1Count st.results i +
          (if i ∉ st.m1 ∧ ∃ p ∈ l, p.1 = i then 1 else 0)) ∧
      (∀ r ∈ (l.foldl pass4Step st).results,
        r ∈ st.results ∨ (r.mtype = "No Match" ∧ r.idx2 = none)) := by
  intro l
  induction l with
  | nil =>
    intro st _
    refine ⟨rfl, rfl, fun i => rfl, fun i => ?_, fun r hr => Or.inl hr⟩
    simp
  | cons p t ih =>
    intro st hpw
    have hpw' := List.pairwise_cons.mp hpw
    by_cases hm1 : p.1 ∈ st.m1
    · have hstep : pass4Step st p = st := by simp [pass4Step, hm1]
      simp only [List.foldl_cons, hstep]
      obtain ⟨g1, g2, g3, g4, g5⟩ := ih st hpw'.2
      refine ⟨g1, g2, g3, fun i => ?_, g5⟩
      rw [g4 i]
      congr 1
      apply if_congr ?_ rfl rfl
      refine and_congr_right fun hi1 => ⟨?_, ?_⟩
      · rintro ⟨q, hq, rfl⟩
        exact ⟨q, List.mem_cons_of_mem _ hq, rfl⟩
      · rintro ⟨q, hq, rfl⟩
        rcases List.mem_cons.mp hq with rfl | hq'
        · exact absurd hm1 hi1
        · exact ⟨q, hq', rfl⟩
    · have hstep : pass4Step st p =
          ⟨st.results ++ [⟨"No Match", 0, "No Match Found", some p.1, none⟩],
            st.m1, st.m2⟩ := by simp [pass4Step, hm1]
      simp only [List.foldl_cons, hstep]
      obtain ⟨g1, g2, g3, g4, g5⟩ := ih
        ⟨st.results ++ [⟨"No Match", 0, "No Match Found", some p.1, none⟩],
          st.m1, st.m2⟩ hpw'.2
      dsimp only at g1 g2 g3 g4 g5
      refine ⟨g1, g2, fun i => ?_, fun i => ?_, fun r hr => ?_⟩
      · rw [g3 i, idx2Count_append,
          idx2Count_single_ne (by simp)]
        omega
      · rw [g4 i, idx1Count_append]
        by_cases hip : i = p.1
        · subst hip
          have hnt : ¬ ∃ q ∈ t, q.1 = p.1 := by
            rintro ⟨q, hq, he⟩
            have := hpw'.1 q hq
            omega
          have e1 : idx1Count
              [(⟨"No Match", 0, "No Match Found", some p.1, none⟩ : Row)]
              p.1 = 1 := idx1Count_single_eq rfl
          have e2 : (if p.1 ∉ st.m1 ∧ ∃ q ∈ t, q.1 = p.1 then 1 else 0) =
              0 := by
            apply if_neg
            rintro ⟨-, hx⟩
            exact hnt hx
          have e3 :
              (if p.1 ∉ st.m1 ∧ ∃ q ∈ p :: t, q.1 = p.1 then 1 else 0) =
              1 := by
            apply if_pos
            exact ⟨hm1, p, List.mem_cons_self .., rfl⟩
          rw [e1, e2, e3]
        · have e1 : idx1Count
              [(⟨"No Match", 0, "No Match Found", some p.1, none⟩ : Row)]
              i = 0 := idx1Count_single_ne (by simp [Ne.symm hip])
          have hiff : (i ∉ st.m1 ∧ ∃ q ∈ t, q.1 = i) ↔
              (i ∉ st.m1 ∧ ∃ q ∈ p :: t, q.1 = i) := by
            refine and_congr_right fun hi1 => ⟨?_, ?_⟩
            · rintro ⟨q, hq, rfl⟩
              exact ⟨q, List.mem_cons_of_mem _ hq, rfl⟩
            · rintro ⟨q, hq, rfl⟩
              rcases List.mem_cons.mp hq with rfl | hq'
              · exact absurd rfl hip
              · exact ⟨q, hq', rfl⟩
          rw [e1, if_congr hiff rfl rfl]
          omega
      · rcases g5 r hr with hr' | hr'
        · rcases List.mem_append.mp hr' with hr2 | hr2
          · exact Or.inl hr2
          · simp only [List.mem_singleton] at hr2
            subst hr2
            exact Or.inr ⟨rfl, rfl⟩
        · exact Or.inr hr'

theorem insertRow_perm (r : Row) : ∀ l : List Row,
    (insertRow r l).Perm (r :: l) := by
  intro l
  induction l with
  | nil => simp [insertRow]
  | cons s rest ih =>
    by_cases h : rowLE r s
    · simp [insertRow, h]
    · simp only [insertRow, h, if_false]
      exact List.Perm.trans (ih.cons s) (List.Perm.swap r s rest)

theorem sortRows_perm : ∀ l : List Row, (sortRows l).Perm l := by
  intro l
  induction l with
  | nil => simp [sortRows]
  | cons r rest ih =>
    have h1 : sortRows (r :: rest) = insertRow r (sortRows rest) := rfl
    rw [h1]
    exact List.Perm.trans (insertRow_perm r (sortRows rest)) (ih.cons r)

/-- Totality and exclusivity of the generic four-pass engine, before the
final sort. -/
theorem engineRun_counts {α β : Type} (f g : β → α → Option ℚ)
    (truthy : α → Bool) (cutoff vsplit : ℚ) (df1 : List α) (df2 : List β) :
    (∀ i, i < df1.length →
      idx1Count (engineRun f g truthy cutoff vsplit df1 df2) i = 1) ∧
    (∀ i, i < df2.length →
      idx2Count (engineRun f g truthy cutoff vsplit df1 df2) i = 1) ∧
    (∀ r ∈ engineRun f g truthy cutoff vsplit df1 df2,
      MatchShape r ∨ (r.mtype = "Possible Match" ∧ r.idx1 = none) ∨
        (r.mtype = "No Match" ∧ r.idx2 = none)) := by
  have hinv0 : StInv ⟨[], ∅, ∅⟩ := by
    refine ⟨fun i => ?_, fun i => ?_, fun r hr => absurd hr (by simp)⟩
    · simp [idx1Count]
    · simp [idx2Count]
  have hinv1 : StInv (pass1 f cutoff vsplit df1 df2 ⟨[], ∅, ∅⟩) := by
    apply pass1_fold_inv f cutoff vsplit df1 (pyEnum df2) _ hinv0
    · intro p _
      simp
    · exact pyEnum_pairwise df2
  have hinv2 : StInv (pass2 g truthy df1 df2
      (pass1 f cutoff vsplit df1 df2 ⟨[], ∅, ∅⟩)) :=
    pass2_fold_inv g truthy df1 (pyEnum df2) _ hinv1
  set st2 := pass2 g truthy df1 df2
    (pass1 f cutoff vsplit df1 df2 ⟨[], ∅, ∅⟩) with hst2
  obtain ⟨k1, k2, k3⟩ := hinv2
  obtain ⟨p3m1, p3m2, p3c1, p3c2, p3mem⟩ :=
    pass3_fold (pyEnum df2) st2 (pyEnum_pairwise df2)
  set st3 := (pyEnum df2).foldl pass3Step st2 with hst3
  obtain ⟨p4m1, p4m2, p4c2, p4c1, p4mem⟩ :=
    pass4_fold (pyEnum df1) st3 (pyEnum_pairwise df1)
  set st4 := (pyEnum df1).foldl pass4Step st3 with hst4
  have hout : engineRun f g truthy cutoff vsplit df1 df2 = st4.results := rfl
  refine ⟨?_, ?_, ?_⟩
  · intro i hi
    rw [hout, p4c1 i, p3c1 i, k1 i, p3m1]
    by_cases hm : i ∈ st2.m1
    · simp [hm]
    · have hex : ∃ p ∈ pyEnum df1, p.1 = i := pyEnum_exists_idx hi
      simp [hm, hex]
  · intro i hi
    rw [hout, p4c2 i, p3c2 i, k2 i]
    by_cases hm : i ∈ st2.m2
    · simp [hm]
    · have hex : ∃ p ∈ pyEnum df2, p.1 = i := pyEnum_exists_idx hi
      simp [hm, hex]
  · intro r hr
    rw [hout] at hr
    rcases p4mem r hr with hr3 | hshape
    · rcases p3mem r hr3 with hr2 | hshape
      · exact Or.inl (k3 r hr2)
      · exact Or.inr (Or.inl hshape)
    · exact Or.inr (Or.inr hshape)

/-- The same counts after the final sort, which is a permutation. -/
theorem sortedRun_counts {α β : Type} (f g : β → α → Option ℚ)
    (truthy : α → Bool) (cutoff vsplit : ℚ) (df1 : List α) (df2 : List β) :
    (∀ i, i < df1.length →
      idx1Count (sortRows (engineRun f g truthy cutoff vsplit df1 df2)) i
        = 1) ∧
    (∀ i, i < df2.length →
      idx2Count (sortRows (engineRun f g truthy cutoff vsplit df1 df2)) i
        = 1) ∧
    (∀ r ∈ sortRows (engineRun f g truthy cutoff vsplit df1 df2),
      MatchShape r ∨ (r.mtype = "Possible Match" ∧ r.idx1 = none) ∨
        (r.mtype = "No Match" ∧ r.idx2 = none)) := by
  obtain ⟨h1, h2, h3⟩ := engineRun_counts f g truthy cutoff vsplit df1 df2
  have hperm := sortRows_perm (engineRun f g truthy cutoff vsplit df1 df2)
  refine ⟨?_, ?_, ?_⟩
  · intro i hi
    rw [idx1Count, hperm.countP_eq]
    exact h1 i hi
  · intro i hi
    rw [idx2Count, hperm.countP_eq]
    exact h2 i hi
  · intro r hr
    exact h3 r (hperm.mem_iff.mp hr)

/-! ### Step-level characterizations of Pass 1 and Pass 2 -/

/-- Pass 1 for one secondary record, at any engine state: no emission and
no state change below the cutoff; at or above the cutoff, exactly one
Ultra-Strict row for the committed candidate, with the Verified/Confirmed
split at `vsplit`, consuming both records. -/
theorem pass1Step_spec {α β : Type} (f : β → α → Option ℚ)
    {cutoff : ℚ} (vsplit : ℚ) (hc : 0 < cutoff) (df1 : List α)
    (st : EngineState) (p : ℕ × β) :
    (¬ cutoff ≤ (bestScan (f p.2) df1 st.m1).1 →
      pass1Step f cutoff vsplit df1 st p = st) ∧
    (cutoff ≤ (bestScan (f p.2) df1 st.m1).1 →
      ∃ q, (bestScan (f p.2) df1 st.m1).2 = some q ∧
        pass1Step f cutoff vsplit df1 st p =
          ⟨st.results ++
            [⟨"Ultra-Strict Match", (bestScan (f p.2) df1 st.m1).1,
              if vsplit ≤ (bestScan (f p.2) df1 st.m1).1 then "Verified"
              else "Confirmed", some q.1, some p.1⟩],
            insert q.1 st.m1, insert p.1 st.m2⟩) := by
  constructor
  · intro h
    simp [pass1Step, h]
  · intro h
    rcases hs : (bestScan (f p.2) df1 st.m1).2 with _ | q
    · have := bestScan_none hs
      exact absurd h (by rw [this]; exact not_le.mpr hc)
    · exact ⟨q, rfl, by simp [pass1Step, h, hs]⟩

/-- Pass 2 for one unconsumed secondary record, at any engine state, when
every candidate score produced by `g` is positive and every primary record
is truthy: a Strict / Review Recommended row is emitted (consuming both
records) exactly when some unconsumed primary has a score, and the row
commits to the scan's candidate. -/
theorem pass2Step_spec {α β : Type} (g : β → α → Option ℚ)
    (truthy : α → Bool) (df1 : List α) (st : EngineState) (p : ℕ × β)
    (hp : p.1 ∉ st.m2)
    (hpos : ∀ (a : α) (c : ℚ), g p.2 a = some c → 0 < c)
    (htr : ∀ a ∈ df1, truthy a = true) :
    ((pass2Step g truthy df1 st p).results.length =
        st.results.length + 1 ↔
      ∃ i a, df1.get? i = some a ∧ i ∉ st.m1 ∧ (g p.2 a).isSome) ∧
    (∀ q, (bestScan (g p.2) df1 st.m1).2 = some q →
      pass2Step g truthy df1 st p =
        ⟨st.results ++
          [⟨"Strict Match", (bestScan (g p.2) df1 st.m1).1,
            "Review Recommended", some q.1, some p.1⟩],
          insert q.1 st.m1, insert p.1 st.m2⟩) := by
  have hshape : ∀ q, (bestScan (g p.2) df1 st.m1).2 = some q →
      pass2Step g truthy df1 st p =
        ⟨st.results ++
          [⟨"Strict Match", (bestScan (g p.2) df1 st.m1).1,
            "Review Recommended", some q.1, some p.1⟩],
          insert q.1 st.m1, insert p.1 st.m2⟩ := by
    intro q hq
    obtain ⟨hqmem, _, _, _⟩ := bestScan_some hq
    have hq2 : q.2 ∈ df1 := by
      have := mem_pyEnum.mp hqmem
      exact List.get?_mem this
    have ht := htr q.2 hq2
    simp [pass2Step, hp, hq, ht]
  refine ⟨⟨?_, ?_⟩, hshape⟩
  · intro hlen
    rcases hs : (bestScan (g p.2) df1 st.m1).2 with _ | q
    · have : pass2Step g truthy df1 st p = st := by
        simp [pass2Step, hp, hs]
      rw [this] at hlen
      omega
    · obtain ⟨hqmem, hqm1, hfq, _⟩ := bestScan_some hs
      exact ⟨q.1, q.2, mem_pyEnum.mp hqmem, hqm1, by simp [hfq]⟩
  · rintro ⟨i, a, hget, hm1, hsome⟩
    rcases ho : g p.2 a with _ | c
    · rw [ho] at hsome
      simp at hsome
    · have hpos' := hpos a c ho
      obtain ⟨q, hq⟩ := bestScan_isSome
        ((@mem_pyEnum _ df1 (i, a)).mpr hget) hm1 ho hpos'
      rw [hshape q hq]
      simp

/-- The Pass-2 drafts.py candidate gate, spelled out. -/
theorem draftsScore2_isSome_iff (name2 name1 : String) :
    (draftsScore2 name2 name1).isSome ↔
      60 ≤ ratio (clean_name name1) (clean_name name2) * 100 ∧
        ratio (clean_name name1) (clean_name name2) * 100 < 85 := by
  unfold draftsScore2
  by_cases h : 60 ≤ ratio (clean_name name1) (clean_name name2) * 100 ∧
      ratio (clean_name name1) (clean_name name2) * 100 < 85
  · simp [h]
  · simp [h]

/-- The Pass-2 pywithgui.py candidate gate, spelled out: all rules pass
their thresholds (with at least one rule) and the mean similarity lies in
the strict band. -/
theorem guiScore2_isSome_iff (rules : List Rule) (rec2 rec1 : Record) :
    (guiScore2 rules rec2 rec1).isSome ↔
      ∃ scores, rulesEval2 rules rec1 rec2 = some scores ∧ scores ≠ [] ∧
        50 ≤ scores.sum / (scores.length : ℚ) ∧
        scores.sum / (scores.length : ℚ) < 85 := by
  unfold guiScore2
  rcases he : rulesEval2 rules rec1 rec2 with _ | scores
  · simp
  · rcases scores with _ | ⟨s, rest⟩
    · simp
    · by_cases hb : 50 ≤ (s :: rest).sum / ((s :: rest).length : ℚ) ∧
          (s :: rest).sum / ((s :: rest).length : ℚ) < 85
      · simp only [hb, and_true]
        constructor
        · intro _
          exact ⟨s :: rest, rfl, by simp, hb.1, hb.2⟩
        · intro _
          simp [hb]
      · constructor
        · intro hx
          simp only at hx
          rw [if_neg hb] at hx
          simp at hx
        · rintro ⟨scores', he', hne, h1, h2⟩
          injection he' with he''
          subst he''
          exact absurd ⟨h1, h2⟩ hb

/-- Positivity of drafts.py Pass-2 candidate scores. -/
theorem draftsScore2_pos (name2 name1 : String) (c : ℚ)
    (h : draftsScore2 name2 name1 = some c) : 0 < c := by
  unfold draftsScore2 at h
  by_cases hb : 60 ≤ ratio (clean_name name1) (clean_name name2) * 100 ∧
      ratio (clean_name name1) (clean_name name2) * 100 < 85
  · rw [if_pos hb] at h
    injection h with h'
    subst h'
    linarith [hb.1]
  · rw [if_neg hb] at h
    cases h

/-- Positivity of pywithgui.py Pass-2 candidate scores. -/
theorem guiScore2_pos (rules : List Rule) (rec2 rec1 : Record) (c : ℚ)
    (h : guiScore2 rules rec2 rec1 = some c) : 0 < c := by
  unfold guiScore2 at h
  rcases he : rulesEval2 rules rec1 rec2 with _ | scores
  · rw [he] at h
    cases h
  · rcases scores with _ | ⟨sc, rest⟩
    · rw [he] at h
      cases h
    · rw [he] at h
      simp only at h
      by_cases hb : 50 ≤ (sc :: rest).sum / (((sc :: rest).length : ℕ) : ℚ) ∧
          (sc :: rest).sum / (((sc :: rest).length : ℕ) : ℚ) < 85
      · rw [if_pos hb] at h
        injection h with h'
        subst h'
        linarith [hb.1]
      · rw [if_neg hb] at h
        cases h

/-! ### The empty rule set -/

theorem guiScore1_nil (rec2 rec1 : Record) : guiScore1 [] rec2 rec1 = none :=
  rfl

theorem guiScore2_nil (rec2 rec1 : Record) : guiScore2 [] rec2 rec1 = none :=
  rfl

theorem bestFold_none {α : Type} (f : α → Option ℚ) (m1 : Finset ℕ)
    (hf : ∀ a, f a = none) :
    ∀ (l : List (ℕ × α)) (acc : ℚ × Option (ℕ × α)),
      l.foldl (bestStep f m1) acc = acc := by
  intro l
  induction l with
  | nil => intro acc; rfl
  | cons p t ih =>
    intro acc
    have hstep : bestStep f m1 acc p = acc := by
      simp [bestStep, hf p.2]
    simp only [List.foldl_cons, hstep]
    exact ih acc

theorem pass1_noop {α β : Type} (f : β → α → Option ℚ)
    {cutoff : ℚ} (vsplit : ℚ) (hc : 0 < cutoff) (df1 : List α)
    (hf : ∀ b a, f b a = none) :
    ∀ (l : List (ℕ × β)) (st : EngineState),
      l.foldl (pass1Step f cutoff vsplit df1) st = st := by
  intro l
  induction l with
  | nil => intro st; rfl
  | cons p t ih =>
    intro st
    have hb : bestScan (f p.2) df1 st.m1 = (0, none) := by
      unfold bestScan
      exact bestFold_none _ _ (fun a => hf p.2 a) _ _
    have hstep : pass1Step f cutoff vsplit df1 st p = st := by
      unfold pass1Step
      rw [hb]
      simp [not_le.mpr hc]
    simp only [List.foldl_cons, hstep]
    exact ih st

theorem pass2_noop {α β : Type} (g : β → α → Option ℚ)
    (truthy : α → Bool) (df1 : List α) (hg : ∀ b a, g b a = none) :
    ∀ (l : List (ℕ × β)) (st : EngineState),
      l.foldl (pass2Step g truthy df1) st = st := by
  intro l
  induction l with
  | nil => intro st; rfl
  | cons p t ih =>
    intro st
    have hb : bestScan (g p.2) df1 st.m1 = (0, none) := by
      unfold bestScan
      exact bestFold_none _ _ (fun a => hg p.2 a) _ _
    have hstep : pass2Step g truthy df1 st p = st := by
      unfold pass2Step
      rw [hb]
      by_cases hm : p.1 ∈ st.m2 <;> simp [hm]
    simp only [List.foldl_cons, hstep]
    exact ih st

theorem pass3_from_empty {β : Type} :
    ∀ (l : List (ℕ × β)) (rs : List Row) (m1 : Finset ℕ),
      l.foldl pass3Step ⟨rs, m1, ∅⟩ =
        ⟨rs ++ l.map fun p =>
          ⟨"Possible Match", 0, "Manual Review Needed", none, some p.1⟩,
          m1, ∅⟩ := by
  intro l
  induction l with
  | nil => intro rs m1; simp
  | cons p t ih =>
    intro rs m1
    have hstep : pass3Step ⟨rs, m1, ∅⟩ p =
        ⟨rs ++ [⟨"Possible Match", 0, "Manual Review Needed", none,
          some p.1⟩], m1, ∅⟩ := by
      simp [pass3Step]
    simp only [List.foldl_cons, hstep, ih, List.map_cons]
    simp

theorem pass4_from_empty {α : Type} :
    ∀ (l : List (ℕ × α)) (rs : List Row) (m2 : Finset ℕ),
      l.foldl pass4Step ⟨rs, ∅, m2⟩ =
        ⟨rs ++ l.map fun p =>
          ⟨"No Match", 0, "No Match Found", some p.1, none⟩,
          ∅, m2⟩ := by
  intro l
  induction l with
  | nil => intro rs m2; simp
  | cons p t ih =>
    intro rs m2
    have hstep : pass4Step ⟨rs, ∅, m2⟩ p =
        ⟨rs ++ [⟨"No Match", 0, "No Match Found", some p.1, none⟩],
          ∅, m2⟩ := by
      simp [pass4Step]
    simp only [List.foldl_cons, hstep, ih, List.map_cons]
    simp

theorem enumFrom_length {α : Type} :
    ∀ (l : List α) (n : ℕ), (enumFrom n l).length = l.length := by
  intro l
  induction l with
  | nil => intro n; rfl
  | cons a t ih => intro n; simp [enumFrom, ih]

/-- With an empty rule set the pywithgui.py engine runs all four passes
and returns one Possible row per secondary and one No-Match row per
primary, in that order (before the sort). -/
theorem engineRun_gui_nil (df1 df2 : List Record) :
    engineRun (guiScore1 []) (guiScore2 []) recTruthy 50 90 df1 df2 =
      ((pyEnum df2).map fun p =>
        ⟨"Possible Match", 0, "Manual Review Needed", none, some p.1⟩) ++
      ((pyEnum df1).map fun p =>
        ⟨"No Match", 0, "No Match Found", some p.1, none⟩) := by
  unfold engineRun pass1 pass2 pass3 pass4
  rw [pass1_noop (guiScore1 []) 90 (by norm_num) df1
    (fun b a => guiScore1_nil b a)]
  rw [pass2_noop (guiScore2 []) recTruthy df1
    (fun b a => guiScore2_nil b a)]
  rw [pass3_from_empty]
  rw [pass4_from_empty]
  simp

/-! ### Supporting instances and counting helpers for the claims -/

theorem countP_impl_le {γ : Type} (p q : γ → Bool)
    (h : ∀ x, p x = true → q x = true) (l : List γ) :
    l.countP p ≤ l.countP q := by
  rw [List.countP_eq_length_filter, List.countP_eq_length_filter]
  exact filter_length_mono p q h l

/-! ### The claims -/

/-- C1: Totality and exclusivity of the four-pass engine: for every pair
of input collections (and rule set, for the pywithgui.py engine), every
primary record and every secondary record appears in exactly one result
row of the returned sequence, no record appears as the primary or
secondary member of more than one non-NoMatch/non-Possible result, and
each matched pair row carries exactly one primary and one secondary
record. -/
theorem C1_totality_exclusivity :
    ∀ (floor : ℚ) (df1 df2 : List String) (rules : List Rule)
      (g1 g2 : List Record),
      ((∀ i, i < df1.length →
          idx1Count (ultra_strict_matching_drafts floor df1 df2) i = 1) ∧
       (∀ i, i < df2.length →
          idx2Count (ultra_strict_matching_drafts floor df1 df2) i = 1) ∧
       (∀ r ∈ ultra_strict_matching_drafts floor df1 df2,
          MatchShape r ∨ (r.mtype = "Possible Match" ∧ r.idx1 = none) ∨
            (r.mtype = "No Match" ∧ r.idx2 = none)) ∧
       (∀ i, i < df1.length →
          (ultra_strict_matching_drafts floor df1 df2).countP
            (fun r => decide (MatchShape r ∧ r.idx1 = some i)) ≤ 1) ∧
       (∀ i, i < df2.length →
          (ultra_strict_matching_drafts floor df1 df2).countP
            (fun r => decide (MatchShape r ∧ r.idx2 = some i)) ≤ 1)) ∧
      ((∀ i, i < g1.length →
          idx1Count (ultra_strict_matching_gui rules g1 g2) i = 1) ∧
       (∀ i, i < g2.length →
          idx2Count (ultra_strict_matching_gui rules g1 g2) i = 1) ∧
       (∀ r ∈ ultra_strict_matching_gui rules g1 g2,
          MatchShape r ∨ (r.mtype = "Possible Match" ∧ r.idx1 = none) ∨
            (r.mtype = "No Match" ∧ r.idx2 = none)) ∧
       (∀ i, i < g1.length →
          (ultra_strict_matching_gui rules g1 g2).countP
            (fun r => decide (MatchShape r ∧ r.idx1 = some i)) ≤ 1) ∧
       (∀ i, i < g2.length →
          (ultra_strict_matching_gui rules g1 g2).countP
            (fun r => decide (MatchShape r ∧ r.idx2 = some i)) ≤ 1)) := by
  intro floor df1 df2 rules g1 g2
  obtain ⟨d1, d2, d3⟩ := sortedRun_counts (draftsScore1 floor) draftsScore2
    (fun _ => true) 85 90 df1 df2
  obtain ⟨e1, e2, e3⟩ := sortedRun_counts (guiScore1 rules) (guiScore2 rules)
    recTruthy 50 90 (g1.map (addSuffix "_Sheet1")) (g2.map (addSuffix "_Sheet2"))
  rw [List.length_map] at e1 e2
  refine ⟨⟨d1, d2, d3, ?_, ?_⟩, ⟨e1, e2, e3, ?_, ?_⟩⟩
  · intro i hi
    have hb : (ultra_strict_matching_drafts floor df1 df2).countP
        (fun r => decide (MatchShape r ∧ r.idx1 = some i)) ≤
        idx1Count (ultra_strict_matching_drafts floor df1 df2) i := by
      apply countP_impl_le
      intro x hx
      exact decide_eq_true (of_decide_eq_true hx).2
    exact le_trans hb (le_of_eq (d1 i hi))
  · intro i hi
    have hb : (ultra_strict_matching_drafts floor df1 df2).countP
        (fun r => decide (MatchShape r ∧ r.idx2 = some i)) ≤
        idx2Count (ultra_strict_matching_drafts floor df1 df2) i := by
      apply countP_impl_le
      intro x hx
      exact decide_eq_true (of_decide_eq_true hx).2
    exact le_trans hb (le_of_eq (d2 i hi))
  · intro i hi
    have hb : (ultra_strict_matching_gui rules g1 g2).countP
        (fun r => decide (MatchShape r ∧ r.idx1 = some i)) ≤
        idx1Count (ultra_strict_matching_gui rules g1 g2) i := by
      apply countP_impl_le
      intro x hx
      exact decide_eq_true (of_decide_eq_true hx).2
    exact le_trans hb (le_of_eq (e1 i hi))
  · intro i hi
    have hb : (ultra_strict_matching_gui rules g1 g2).countP
        (fun r => decide (MatchShape r ∧ r.idx2 = some i)) ≤
        idx2Count (ultra_strict_matching_gui rules g1 g2) i := by
      apply countP_impl_le
      intro x hx
      exact decide_eq_true (of_decide_eq_true hx).2
    exact le_trans hb (le_of_eq (e2 i hi))

theorem C1_totality_exclusivity_witness :
    idx1Count (ultra_strict_matching_drafts (85/100) ["aa bb"] ["aa bb"]) 0 =
      1 ∧
    idx2Count (ultra_strict_matching_gui [⟨"Name", "Name", 50⟩]
      [[("Name", .vstr "wxyz")]] [[("Name", .vstr "wxyz")]]) 0 = 1 :=
  ⟨(C1_totality_exclusivity (85/100) ["aa bb"] ["aa bb"] [] [] []).1.1 0
      (by decide),
   (C1_totality_exclusivity 0 [] [] [⟨"Name", "Name", 50⟩]
      [[("Name", .vstr "wxyz")]] [[("Name", .vstr "wxyz")]]).2.2.1 0
      (by decide)⟩

/-- C2: Early-exit, fixed-order positional word scorer: with fewer than 2
whitespace tokens on either side (after trimming and case-folding) the
scorer returns 0; otherwise it equals the claim-side description — the
mean (×100) of the similarities of the first two qualifying token pairs in
the fixed scan order over at most the first 3 tokens with |i−j| ≤ 1, and 0
if fewer than two pairs reach the floor. -/
theorem C2_scorer_refinement :
    ∀ (floor : ℚ) (name1 name2 : String),
      ((pySplit (clean_name name1)).length < 2 ∨
          (pySplit (clean_name name2)).length < 2 →
        ultra_strict_match floor name1 name2 = 0) ∧
      ultra_strict_match floor name1 name2 =
        claimPositionalScore floor name1 name2 := by
  intro floor name1 name2
  constructor
  · intro h
    simp [ultra_strict_match, h]
  · exact ultra_strict_match_eq_claim floor name1 name2

theorem C2_scorer_refinement_witness :
    ultra_strict_match (85/100) "onlyoneword" "two words" = 0 ∧
    ultra_strict_match (85/100) "John Smith" "jon   smyth" =
      claimPositionalScore (85/100) "John Smith" "jon   smyth" :=
  ⟨(C2_scorer_refinement (85/100) "onlyoneword" "two words").1
      (by with_unfolding_all decide),
   (C2_scorer_refinement (85/100) "John Smith" "jon   smyth").2⟩

/-- C7 counterexample: `charSimilarity` is not symmetric — on
`"aba"`/`"babba"` the two orders give 3/4 and 1/2. -/
theorem C7_counterexample :
    ratioS "aba" "babba" = 3 / 4 ∧ ratioS "babba" "aba" = 1 / 2 ∧
      ratioS "aba" "babba" ≠ ratioS "babba" "aba" := by
  refine ⟨by with_unfolding_all decide, by with_unfolding_all decide, ?_⟩
  intro h
  rw [show ratioS "aba" "babba" = 3 / 4 from by with_unfolding_all decide,
    show ratioS "babba" "aba" = 1 / 2 from by with_unfolding_all decide] at h
  norm_num at h

/-- C7 (amended): `charSimilarity(s, s)` is 1.0 for every string
(including both-empty); it is 0.0 when exactly one of the two strings is
empty. The symmetry clause of the claim is false (see the
counterexample). -/
theorem C7_amended_charSimilarity :
    (∀ s : List Char, ratio s s = 1) ∧
    (∀ s : List Char, s ≠ [] → ratio [] s = 0 ∧ ratio s [] = 0) ∧
    ratio [] [] = 1 := by
  refine ⟨ratio_self, fun s hs => ⟨ratio_nil_left hs, ratio_nil_right hs⟩, ?_⟩
  unfold ratio
  simp

theorem C7_amended_charSimilarity_witness :
    ratio [] "q".data = 0 ∧ ratio "q".data [] = 0 :=
  C7_amended_charSimilarity.2.1 "q".data (by decide)

/-- C8 counterexample: raising the ultra-strict floor from 0.50 to 0.85
moves the pair ("abcde zzzzz zzzzz", "abcxy rrrrr zzzzz") INTO the
UltraStrict tier (scores 80 → 100 across the drafts.py engine's 85
cutoff), which the claim says can never happen. -/
theorem C8_counterexample :
    ultra_strict_match (1/2) "abcde zzzzz zzzzz" "abcxy rrrrr zzzzz" = 80 ∧
    ultra_strict_match (85/100) "abcde zzzzz zzzzz" "abcxy rrrrr zzzzz" =
      100 ∧
    (ultra_strict_matching_drafts (1/2) ["abcde zzzzz zzzzz"]
      ["abcxy rrrrr zzzzz"]).countP
        (fun r => decide (r.mtype = "Ultra-Strict Match")) = 0 ∧
    (ultra_strict_matching_drafts (85/100) ["abcde zzzzz zzzzz"]
      ["abcxy rrrrr zzzzz"]).countP
        (fun r => decide (r.mtype = "Ultra-Strict Match")) = 1 := by
  with_unfolding_all decide

/-- C8 (amended): raising the floor only shrinks the set of name pairs
with a nonzero positional score (a pair scored nonzero at the higher floor
is scored nonzero at any positive lower floor); the score value itself —
and hence UltraStrict membership — is not monotone, because the early-exit
scan can credit a different, higher-scoring token pair set at the higher
floor (see the counterexample). -/
theorem C8_amended_floor :
    ∀ (f1 f2 : ℚ) (name1 name2 : String), 0 < f1 → f1 ≤ f2 →
      ultra_strict_match f2 name1 name2 ≠ 0 →
      ultra_strict_match f1 name1 name2 ≠ 0 := by
  intro f1 f2 name1 name2 hpos hle h2
  rw [ultra_strict_match_eq_claim] at h2 ⊢
  unfold claimPositionalScore at h2 ⊢
  by_cases hw : (pySplit (clean_name name1)).length < 2 ∨
      (pySplit (clean_name name2)).length < 2
  · rw [if_pos hw] at h2
    exact absurd rfl h2
  · rw [if_neg hw] at h2 ⊢
    rcases hq2 : claimQualifying f2 (pySplit (clean_name name1))
        (pySplit (clean_name name2)) with _ | ⟨p2, _ | ⟨q2, r2⟩⟩
    · rw [hq2] at h2
      exact absurd rfl h2
    · rw [hq2] at h2
      exact absurd rfl h2
    · have hlen2 : 2 ≤ (claimQualifying f2 (pySplit (clean_name name1))
          (pySplit (clean_name name2))).length := by
        rw [hq2]
        simp
      have hlen1 : 2 ≤ (claimQualifying f1 (pySplit (clean_name name1))
          (pySplit (clean_name name2))).length := by
        refine le_trans hlen2 ?_
        unfold claimQualifying
        apply filter_length_mono
        intro x hx
        have hsx := of_decide_eq_true hx
        exact decide_eq_true (le_trans hle hsx)
      rcases hq1 : claimQualifying f1 (pySplit (clean_name name1))
          (pySplit (clean_name name2)) with _ | ⟨p1, _ | ⟨q1, r1⟩⟩
      · rw [hq1] at hlen1
        simp at hlen1
      · rw [hq1] at hlen1
        simp at hlen1
      · have hs1 : f1 ≤ wordSim (pySplit (clean_name name1))
            (pySplit (clean_name name2)) p1 := by
          apply claimQualifying_sim
          rw [hq1]
          exact List.mem_cons_self ..
        have hs2 : f1 ≤ wordSim (pySplit (clean_name name1))
            (pySplit (clean_name name2)) q1 := by
          apply claimQualifying_sim
          rw [hq1]
          exact List.mem_cons_of_mem _ (List.mem_cons_self ..)
        intro hzero
        have hval : ((wordSim (pySplit (clean_name name1))
            (pySplit (clean_name name2)) p1 +
            wordSim (pySplit (clean_name name1))
              (pySplit (clean_name name2)) q1) / 2) * 100 = 0 := hzero
        linarith

theorem C8_amended_floor_witness :
    ultra_strict_match (85/100) "abcde zzzzz zzzzz" "abcxy rrrrr zzzzz" ≠
      0 ∧
    ultra_strict_match (1/2) "abcde zzzzz zzzzz" "abcxy rrrrr zzzzz" ≠ 0 :=
  have hne : ultra_strict_match (85/100) "abcde zzzzz zzzzz"
      "abcxy rrrrr zzzzz" ≠ 0 := by
    intro h
    rw [show ultra_strict_match (85/100) "abcde zzzzz zzzzz"
        "abcxy rrrrr zzzzz" = 100 from by with_unfolding_all decide] at h
    norm_num at h
  ⟨hne, C8_amended_floor (1/2) (85/100) "abcde zzzzz zzzzz"
    "abcxy rrrrr zzzzz" (by norm_num) (by norm_num) hne⟩

/-- C10: Implicit range invariant of the positional word scorer: with a
floor in [0, 1], the scorer returns either exactly 0 or a value in
[floor × 100, 100], because a nonzero return averages exactly two
similarities, each at least the floor and at most 1. -/
theorem C10_range_invariant :
    ∀ (floor : ℚ) (name1 name2 : String), 0 ≤ floor → floor ≤ 1 →
      ultra_strict_match floor name1 name2 = 0 ∨
        (floor * 100 ≤ ultra_strict_match floor name1 name2 ∧
          ultra_strict_match floor name1 name2 ≤ 100) := by
  intro floor name1 name2 h0 h1
  rw [ultra_strict_match_eq_claim]
  unfold claimPositionalScore
  by_cases hw : (pySplit (clean_name name1)).length < 2 ∨
      (pySplit (clean_name name2)).length < 2
  · rw [if_pos hw]
    exact Or.inl rfl
  · rw [if_neg hw]
    rcases hq : claimQualifying floor (pySplit (clean_name name1))
        (pySplit (clean_name name2)) with _ | ⟨p, _ | ⟨q, r⟩⟩
    · exact Or.inl rfl
    · exact Or.inl rfl
    · right
      have hs1 : floor ≤ wordSim (pySplit (clean_name name1))
          (pySplit (clean_name name2)) p := by
        apply claimQualifying_sim
        rw [hq]
        exact List.mem_cons_self ..
      have hs2 : floor ≤ wordSim (pySplit (clean_name name1))
          (pySplit (clean_name name2)) q := by
        apply claimQualifying_sim
        rw [hq]
        exact List.mem_cons_of_mem _ (List.mem_cons_self ..)
      have hu1 : wordSim (pySplit (clean_name name1))
          (pySplit (clean_name name2)) p ≤ 1 := ratio_le_one _ _
      have hu2 : wordSim (pySplit (clean_name name1))
          (pySplit (clean_name name2)) q ≤ 1 := ratio_le_one _ _
      constructor
      · show floor * 100 ≤ ((wordSim (pySplit (clean_name name1))
          (pySplit (clean_name name2)) p +
          wordSim (pySplit (clean_name name1))
            (pySplit (clean_name name2)) q) / 2) * 100
        linarith
      · show ((wordSim (pySplit (clean_name name1))
          (pySplit (clean_name name2)) p +
          wordSim (pySplit (clean_name name1))
            (pySplit (clean_name name2)) q) / 2) * 100 ≤ 100
        linarith

theorem C10_range_invariant_witness :
    ultra_strict_match (85/100) "aa bb" "aa bb" = 0 ∨
      ((85/100 : ℚ) * 100 ≤ ultra_strict_match (85/100) "aa bb" "aa bb" ∧
        ultra_strict_match (85/100) "aa bb" "aa bb" ≤ 100) :=
  C10_range_invariant (85/100) "aa bb" "aa bb" (by norm_num) (by norm_num)

/-- C3 counterexample: in the pywithgui.py engine a best score of 60
(strictly below 85) is emitted in Pass 1 as an Ultra-Strict / Confirmed
match — the Pass-1 acceptance cutoff there is 50, not 85. -/
theorem C3_counterexample :
    ultra_strict_matching_gui [⟨"Name", "Name", 50⟩]
      [[("Name", .vstr "abcde")]] [[("Name", .vstr "abcxx")]] =
      [⟨"Ultra-Strict Match", 60, "Confirmed", some 0, some 0⟩] ∧
    (60 : ℚ) < 85 := by
  constructor
  · with_unfolding_all decide
  · norm_num

/-- C3 (amended): Pass-1 acceptance and status boundaries, per engine: in
the drafts.py engine a result is emitted iff the best candidate's score is
at least 85 (inclusive), with status Verified iff the score is at least 90
and Confirmed otherwise, and below 85 the state is unchanged so the
secondary record is left for Pass 2; in the pywithgui.py engine the same
holds with acceptance cutoff 50 instead of 85 (Verified split still
90). -/
theorem C3_amended_pass1_boundaries :
    (∀ (floor : ℚ) (df1 : List String) (st : EngineState)
       (p : ℕ × String),
      (¬ 85 ≤ (bestScan (draftsScore1 floor p.2) df1 st.m1).1 →
        pass1Step (draftsScore1 floor) 85 90 df1 st p = st) ∧
      (85 ≤ (bestScan (draftsScore1 floor p.2) df1 st.m1).1 →
        ∃ q, (bestScan (draftsScore1 floor p.2) df1 st.m1).2 = some q ∧
          pass1Step (draftsScore1 floor) 85 90 df1 st p =
            ⟨st.results ++
              [⟨"Ultra-Strict Match",
                (bestScan (draftsScore1 floor p.2) df1 st.m1).1,
                if 90 ≤ (bestScan (draftsScore1 floor p.2) df1 st.m1).1
                then "Verified" else "Confirmed", some q.1, some p.1⟩],
              insert q.1 st.m1, insert p.1 st.m2⟩)) ∧
    (∀ (rules : List Rule) (df1 : List Record) (st : EngineState)
       (p : ℕ × Record),
      (¬ 50 ≤ (bestScan (guiScore1 rules p.2) df1 st.m1).1 →
        pass1Step (guiScore1 rules) 50 90 df1 st p = st) ∧
      (50 ≤ (bestScan (guiScore1 rules p.2) df1 st.m1).1 →
        ∃ q, (bestScan (guiScore1 rules p.2) df1 st.m1).2 = some q ∧
          pass1Step (guiScore1 rules) 50 90 df1 st p =
            ⟨st.results ++
              [⟨"Ultra-Strict Match",
                (bestScan (guiScore1 rules p.2) df1 st.m1).1,
                if 90 ≤ (bestScan (guiScore1 rules p.2) df1 st.m1).1
                then "Verified" else "Confirmed", some q.1, some p.1⟩],
              insert q.1 st.m1, insert p.1 st.m2⟩)) := by
  constructor
  · intro floor df1 st p
    exact pass1Step_spec (draftsScore1 floor) 90 (by norm_num) df1 st p
  · intro rules df1 st p
    exact pass1Step_spec (guiScore1 rules) 90 (by norm_num) df1 st p

theorem C3_amended_pass1_boundaries_witness :
    (pass1Step (draftsScore1 (85/100)) 85 90 ["cc dd"] ⟨[], ∅, ∅⟩
      (0, "aa bb") = ⟨[], ∅, ∅⟩) ∧
    ∃ q, (bestScan (draftsScore1 (85/100) "aa bb") ["aa bb"] ∅).2 =
        some q ∧
      pass1Step (draftsScore1 (85/100)) 85 90 ["aa bb"] ⟨[], ∅, ∅⟩
          (0, "aa bb") =
        ⟨[⟨"Ultra-Strict Match",
            (bestScan (draftsScore1 (85/100) "aa bb") ["aa bb"] ∅).1,
            if 90 ≤ (bestScan (draftsScore1 (85/100) "aa bb")
                ["aa bb"] ∅).1
            then "Verified" else "Confirmed", some q.1, some 0⟩],
          insert q.1 ∅, insert 0 ∅⟩ :=
  ⟨(C3_amended_pass1_boundaries.1 (85/100) ["cc dd"] ⟨[], ∅, ∅⟩
      (0, "aa bb")).1 (by with_unfolding_all decide),
   (C3_amended_pass1_boundaries.1 (85/100) ["aa bb"] ⟨[], ∅, ∅⟩
      (0, "aa bb")).2 (by with_unfolding_all decide)⟩

/-- C4 counterexample: the pywithgui.py engine's Pass 1 does not use the
word-positional comparator: on single-token names (where the positional
scorer is 0 at both deployed floors) it still emits an Ultra-Strict match
with score 100 from plain character similarity. -/
theorem C4_counterexample :
    ultra_strict_matching_gui [⟨"Name", "Name", 50⟩]
      [[("Name", .vstr "abcd")]] [[("Name", .vstr "abcd")]] =
      [⟨"Ultra-Strict Match", 100, "Verified", some 0, some 0⟩] ∧
    ultra_strict_match (85/100) "abcd" "abcd" = 0 ∧
    ultra_strict_match (1/2) "abcd" "abcd" = 0 := by
  with_unfolding_all decide

/-- C4 (amended): Pass-1 candidate search, per engine: the drafts.py
engine scores each not-yet-consumed primary with the word-positional
comparator and commits to the maximum-scoring candidate, ties between
equal scores going to the first-encountered primary in collection order
(every strictly earlier unconsumed candidate scores strictly below the
committed best); the pywithgui.py engine selects the same way but over
the per-rule character-similarity comparator, not the positional one. -/
theorem C4_amended_candidate_search :
    (∀ (floor : ℚ) (df1 : List String) (m1 : Finset ℕ) (name2 : String)
       (q : ℕ × String),
      (bestScan (draftsScore1 floor name2) df1 m1).2 = some q →
      df1.get? q.1 = some q.2 ∧ q.1 ∉ m1 ∧
      ultra_strict_match floor q.2 name2 =
        (bestScan (draftsScore1 floor name2) df1 m1).1 ∧
      (∀ i a, df1.get? i = some a → i ∉ m1 →
        ultra_strict_match floor a name2 ≤
          (bestScan (draftsScore1 floor name2) df1 m1).1) ∧
      (∀ i a, df1.get? i = some a → i ∉ m1 → i < q.1 →
        ultra_strict_match floor a name2 <
          (bestScan (draftsScore1 floor name2) df1 m1).1)) ∧
    (∀ (rules : List Rule) (df1 : List Record) (m1 : Finset ℕ)
       (rec2 : Record) (q : ℕ × Record),
      (bestScan (guiScore1 rules rec2) df1 m1).2 = some q →
      df1.get? q.1 = some q.2 ∧ q.1 ∉ m1 ∧
      guiScore1 rules rec2 q.2 =
        some (bestScan (guiScore1 rules rec2) df1 m1).1 ∧
      (∀ i a c, df1.get? i = some a → i ∉ m1 →
        guiScore1 rules rec2 a = some c →
        c ≤ (bestScan (guiScore1 rules rec2) df1 m1).1) ∧
      (∀ i a c, df1.get? i = some a → i ∉ m1 → i < q.1 →
        guiScore1 rules rec2 a = some c →
        c < (bestScan (guiScore1 rules rec2) df1 m1).1)) := by
  constructor
  · intro floor df1 m1 name2 q hq
    obtain ⟨hmem, hm1, hfq, _⟩ := bestScan_some hq
    have hget := mem_pyEnum.mp hmem
    have hsc : ultra_strict_match floor q.2 name2 =
        (bestScan (draftsScore1 floor name2) df1 m1).1 := by
      have : draftsScore1 floor name2 q.2 =
          some (bestScan (draftsScore1 floor name2) df1 m1).1 := hfq
      unfold draftsScore1 at this
      injection this
    refine ⟨hget, hm1, hsc, ?_, ?_⟩
    · intro i a hget' hm'
      exact bestScan_max (draftsScore1 floor name2) df1 m1 (i, a)
        ((@mem_pyEnum _ df1 (i, a)).mpr hget') hm'
        (ultra_strict_match floor a name2) rfl
    · intro i a hget' hm' hlt
      exact bestScan_first hq (i, a) ((@mem_pyEnum _ df1 (i, a)).mpr hget')
        hm' hlt (ultra_strict_match floor a name2) rfl
  · intro rules df1 m1 rec2 q hq
    obtain ⟨hmem, hm1, hfq, _⟩ := bestScan_some hq
    have hget := mem_pyEnum.mp hmem
    refine ⟨hget, hm1, hfq, ?_, ?_⟩
    · intro i a c hget' hm' hc
      exact bestScan_max (guiScore1 rules rec2) df1 m1 (i, a)
        ((@mem_pyEnum _ df1 (i, a)).mpr hget') hm' c hc
    · intro i a c hget' hm' hlt hc
      exact bestScan_first hq (i, a) ((@mem_pyEnum _ df1 (i, a)).mpr hget')
        hm' hlt c hc

theorem C4_amended_candidate_search_witness :
    ["aa bb", "aa bb"].get? 0 = some "aa bb" ∧
    (0 : ℕ) ∉ (∅ : Finset ℕ) ∧
    ultra_strict_match (85/100) "aa bb" "aa bb" =
      (bestScan (draftsScore1 (85/100) "aa bb") ["aa bb", "aa bb"] ∅).1 ∧
    ultra_strict_match (85/100) "aa bb" "aa bb" ≤
      (bestScan (draftsScore1 (85/100) "aa bb") ["aa bb", "aa bb"] ∅).1 :=
  have h := C4_amended_candidate_search.1 (85/100) ["aa bb", "aa bb"] ∅
    "aa bb" (0, "aa bb") (by with_unfolding_all decide)
  ⟨h.1, h.2.1, h.2.2.1,
   h.2.2.2.1 1 "aa bb" (by decide) (by decide)⟩

/-- C5 counterexample: in the pywithgui.py engine with a single rule of
threshold 90, the candidate's mean character similarity is 60, inside the
claimed acceptance band [50, 85), yet Pass 2 emits nothing (the rule's
threshold gate fails first) — the claimed if-and-only-if is false. -/
theorem C5_counterexample :
    ratioS "abcde" "abcxx" * 100 = 60 ∧
    (50 ≤ (60 : ℚ) ∧ (60 : ℚ) < 85) ∧
    ultra_strict_matching_gui [⟨"Name", "Name", 90⟩]
      [[("Name", .vstr "abcde")]] [[("Name", .vstr "abcxx")]] =
      [⟨"No Match", 0, "No Match Found", some 0, none⟩,
       ⟨"Possible Match", 0, "Manual Review Needed", none, some 0⟩] := by
  refine ⟨by with_unfolding_all decide, by norm_num, ?_⟩
  with_unfolding_all decide

/-- C5 (amended): Pass-2 acceptance, per engine, for any unconsumed
secondary record at any engine state: the drafts.py engine emits a
Strict / Review Recommended row (consuming both records, committing to
the scan's candidate) iff some unconsumed primary's character similarity
(×100) of the cleaned names lies in [60, 85); the pywithgui.py engine
(all primary records non-empty) emits iff some unconsumed primary passes
every rule's character-similarity threshold (with at least one rule) and
the mean similarity lies in [50, 85). -/
theorem C5_amended_pass2_band :
    (∀ (df1 : List String) (st : EngineState) (p : ℕ × String),
      p.1 ∉ st.m2 →
      ((pass2Step draftsScore2 (fun _ => true) df1 st p).results.length =
          st.results.length + 1 ↔
        ∃ i a, df1.get? i = some a ∧ i ∉ st.m1 ∧
          60 ≤ ratio (clean_name a) (clean_name p.2) * 100 ∧
          ratio (clean_name a) (clean_name p.2) * 100 < 85) ∧
      (∀ q, (bestScan (draftsScore2 p.2) df1 st.m1).2 = some q →
        pass2Step draftsScore2 (fun _ => true) df1 st p =
          ⟨st.results ++
            [⟨"Strict Match", (bestScan (draftsScore2 p.2) df1 st.m1).1,
              "Review Recommended", some q.1, some p.1⟩],
            insert q.1 st.m1, insert p.1 st.m2⟩)) ∧
    (∀ (rules : List Rule) (df1 : List Record) (st : EngineState)
       (p : ℕ × Record),
      p.1 ∉ st.m2 → (∀ a ∈ df1, a ≠ []) →
      ((pass2Step (guiScore2 rules) recTruthy df1 st p).results.length =
          st.results.length + 1 ↔
        ∃ i a, df1.get? i = some a ∧ i ∉ st.m1 ∧
          ∃ scores, rulesEval2 rules a p.2 = some scores ∧ scores ≠ [] ∧
            50 ≤ scores.sum / (scores.length : ℚ) ∧
            scores.sum / (scores.length : ℚ) < 85) ∧
      (∀ q, (bestScan (guiScore2 rules p.2) df1 st.m1).2 = some q →
        pass2Step (guiScore2 rules) recTruthy df1 st p =
          ⟨st.results ++
            [⟨"Strict Match", (bestScan (guiScore2 rules p.2) df1 st.m1).1,
              "Review Recommended", some q.1, some p.1⟩],
            insert q.1 st.m1, insert p.1 st.m2⟩)) := by
  constructor
  · intro df1 st p hp
    obtain ⟨hiff, hshape⟩ := pass2Step_spec draftsScore2 (fun _ => true)
      df1 st p hp (fun a c hc => draftsScore2_pos p.2 a c hc)
      (fun a _ => rfl)
    refine ⟨?_, hshape⟩
    rw [hiff]
    constructor
    · rintro ⟨i, a, hget, hm, hsome⟩
      obtain ⟨h1, h2⟩ := (draftsScore2_isSome_iff p.2 a).mp hsome
      exact ⟨i, a, hget, hm, h1, h2⟩
    · rintro ⟨i, a, hget, hm, h1, h2⟩
      exact ⟨i, a, hget, hm, (draftsScore2_isSome_iff p.2 a).mpr ⟨h1, h2⟩⟩
  · intro rules df1 st p hp hne
    obtain ⟨hiff, hshape⟩ := pass2Step_spec (guiScore2 rules) recTruthy
      df1 st p hp (fun a c hc => guiScore2_pos rules p.2 a c hc)
      (fun a ha => by simp [recTruthy, hne a ha])
    refine ⟨?_, hshape⟩
    rw [hiff]
    constructor
    · rintro ⟨i, a, hget, hm, hsome⟩
      obtain ⟨scores, hsc, hne', h1, h2⟩ :=
        (guiScore2_isSome_iff rules p.2 a).mp hsome
      exact ⟨i, a, hget, hm, scores, hsc, hne', h1, h2⟩
    · rintro ⟨i, a, hget, hm, scores, hsc, hne', h1, h2⟩
      exact ⟨i, a, hget, hm,
        (guiScore2_isSome_iff rules p.2 a).mpr ⟨scores, hsc, hne', h1, h2⟩⟩

theorem C5_amended_pass2_band_witness :
    (pass2Step draftsScore2 (fun _ => true) ["abcde"] ⟨[], ∅, ∅⟩
      (0, "abcxx")).results.length = ([] : List Row).length + 1 :=
  ((C5_amended_pass2_band.1 ["abcde"] ⟨[], ∅, ∅⟩ (0, "abcxx")
      (by decide)).1).mpr
    ⟨0, "abcde", by decide, by decide, by with_unfolding_all decide,
      by with_unfolding_all decide⟩

/-- C6 counterexample: in a Pass-2 rule evaluation of pywithgui.py a
missing attribute (null on the primary side) does NOT fail the rule: the
null is stringified to "None" and compared as an ordinary string, the
rule evaluation succeeds with similarity 80, and the engine emits a
Strict match for the pair. -/
theorem C6_counterexample :
    (recGet [("Other_Sheet1", Value.vstr "x")] "Name_Sheet1").isna =
      true ∧
    rulesEval2 [⟨"Name", "Name", 50⟩] [("Other_Sheet1", .vstr "x")]
      [("Name_Sheet2", .vstr "Nonezz")] = some [80] ∧
    ultra_strict_matching_gui [⟨"Name", "Name", 50⟩]
      [[("Other", .vstr "x")]] [[("Name", .vstr "Nonezz")]] =
      [⟨"Strict Match", 80, "Review Recommended", some 0, some 0⟩] := by
  with_unfolding_all decide

/-- C6 (amended): the missing-attribute policy holds in Pass 1: if either
record's value for a rule's attribute is absent or null, `values_match`
fails, so the whole Pass-1 rule evaluation returns failure regardless of
the remaining rules (which are therefore never scored). In Pass 2 the
policy does not hold: missing values are stringified and compared like
ordinary strings (see the counterexample); no exception is raised in
either pass (the embedding is total). -/
theorem C6_amended_missing_attribute :
    ∀ (rule : Rule) (rest : List Rule) (r1 r2 : Record),
      (recGet r1 (rule.col1 ++ "_Sheet1")).isna = true ∨
        (recGet r2 (rule.col2 ++ "_Sheet2")).isna = true →
      rulesEval1 (rule :: rest) r1 r2 = none := by
  intro rule rest r1 r2 h
  have hvm : values_match (recGet r1 (rule.col1 ++ "_Sheet1"))
      (recGet r2 (rule.col2 ++ "_Sheet2")) rule.threshold = false := by
    unfold values_match
    rcases h with h | h <;> simp [h]
  simp [rulesEval1, hvm]

theorem C6_amended_missing_attribute_witness :
    rulesEval1 [⟨"Name", "Name", 50⟩, ⟨"Units", "Units", 50⟩] []
      [("Name_Sheet2", .vstr "x")] = none :=
  C6_amended_missing_attribute ⟨"Name", "Name", 50⟩
    [⟨"Units", "Units", 50⟩] [] [("Name_Sheet2", .vstr "x")]
    (by with_unfolding_all decide)

/-- C9 counterexample: invoked with zero rules, the pywithgui.py engine
does not signal a configuration error: it runs all four passes and
returns an output sequence (one No-Match and one Possible row here). -/
theorem C9_counterexample :
    ultra_strict_matching_gui [] [[("Name", .vstr "a")]]
      [[("Name", .vstr "b")]] =
      [⟨"No Match", 0, "No Match Found", some 0, none⟩,
       ⟨"Possible Match", 0, "Manual Review Needed", none, some 0⟩] := by
  with_unfolding_all decide

/-- C9 (amended): with an empty rule set the engine does not fail fast;
no pair can pass, so it runs to completion and returns exactly one
Possible row per secondary record and one No-Match row per primary
record, and nothing else. -/
theorem C9_amended_empty_rules :
    ∀ (df1 df2 : List Record),
      (∀ r ∈ ultra_strict_matching_gui [] df1 df2,
        r.mtype = "Possible Match" ∨ r.mtype = "No Match") ∧
      (ultra_strict_matching_gui [] df1 df2).countP
        (fun r => decide (r.mtype = "Possible Match")) = df2.length ∧
      (ultra_strict_matching_gui [] df1 df2).countP
        (fun r => decide (r.mtype = "No Match")) = df1.length := by
  intro df1 df2
  have hrun := engineRun_gui_nil (df1.map (addSuffix "_Sheet1"))
    (df2.map (addSuffix "_Sheet2"))
  have hperm : (ultra_strict_matching_gui [] df1 df2).Perm
      (((pyEnum (df2.map (addSuffix "_Sheet2"))).map fun p =>
        ⟨"Possible Match", 0, "Manual Review Needed", none, some p.1⟩) ++
      ((pyEnum (df1.map (addSuffix "_Sheet1"))).map fun p =>
        ⟨"No Match", 0, "No Match Found", some p.1, none⟩)) := by
    unfold ultra_strict_matching_gui
    rw [hrun]
    exact sortRows_perm _
  refine ⟨?_, ?_, ?_⟩
  · intro r hr
    have := hperm.mem_iff.mp hr
    rcases List.mem_append.mp this with h | h
    · obtain ⟨p, _, hp⟩ := List.mem_map.mp h
      subst hp
      exact Or.inl rfl
    · obtain ⟨p, _, hp⟩ := List.mem_map.mp h
      subst hp
      exact Or.inr rfl
  · rw [hperm.countP_eq, List.countP_append]
    have h1 : ((pyEnum (df2.map (addSuffix "_Sheet2"))).map fun p =>
        (⟨"Possible Match", 0, "Manual Review Needed", none,
          some p.1⟩ : Row)).countP
        (fun r => decide (r.mtype = "Possible Match")) =
        (pyEnum (df2.map (addSuffix "_Sheet2"))).length := by
      rw [List.countP_map, List.countP_eq_length]
      intro a ha
      simp [Function.comp]
    have h2 : ((pyEnum (df1.map (addSuffix "_Sheet1"))).map fun p =>
        (⟨"No Match", 0, "No Match Found", some p.1, none⟩ : Row)).countP
        (fun r => decide (r.mtype = "Possible Match")) = 0 := by
      rw [List.countP_eq_zero]
      intro a ha
      obtain ⟨p, _, hp⟩ := List.mem_map.mp ha
      subst hp
      simp
    rw [h1, h2]
    unfold pyEnum
    rw [enumFrom_length, List.length_map]
    omega
  · rw [hperm.countP_eq, List.countP_append]
    have h1 : ((pyEnum (df2.map (addSuffix "_Sheet2"))).map fun p =>
        (⟨"Possible Match", 0, "Manual Review Needed", none,
          some p.1⟩ : Row)).countP
        (fun r => decide (r.mtype = "No Match")) = 0 := by
      rw [List.countP_eq_zero]
      intro a ha
      obtain ⟨p, _, hp⟩ := List.mem_map.mp ha
      subst hp
      simp
    have h2 : ((pyEnum (df1.map (addSuffix "_Sheet1"))).map fun p =>
        (⟨"No Match", 0, "No Match Found", some p.1, none⟩ : Row)).countP
        (fun r => decide (r.mtype = "No Match")) =
        (pyEnum (df1.map (addSuffix "_Sheet1"))).length := by
      rw [List.countP_map, List.countP_eq_length]
      intro a ha
      simp [Function.comp]
    rw [h1, h2]
    unfold pyEnum
    rw [enumFrom_length, List.length_map]
    omega

theorem C9_amended_empty_rules_witness :
    (⟨"No Match", 0, "No Match Found", some 0, none⟩ : Row).mtype =
        "Possible Match" ∨
      (⟨"No Match", 0, "No Match Found", some 0, none⟩ : Row).mtype =
        "No Match" :=
  (C9_amended_empty_rules [[("Name", .vstr "a")]]
      [[("Name", .vstr "b")]]).1
    ⟨"No Match", 0, "No Match Found", some 0, none⟩
    (by with_unfolding_all decide)

end Recon
